import Mathlib

/-!
Verification development for the token-API aggregation service.

The TypeScript sources are shallowly embedded:
* JavaScript strings are modelled as lists of UTF-16 code units (`JStr`);
  `toLowerCase` is modelled on the ASCII range (token addresses are ASCII),
  `trim` strips the JS whitespace/line-terminator code points that occur in
  practice.
* JavaScript `Map`/plain-object dictionaries are modelled as association
  lists with insert-or-replace (`dset`) and first-match lookup (`dget`).
* Every network interaction is a parameter (an environment function giving
  the response to the k-th request); `async`/`await` sequencing is direct
  state passing, `Date.now()` within one call is a single `now` parameter
  (the delays between requests do not affect any modelled observation).
* `throw`/`try`/`catch` become `Except` with explicit handling exactly at
  the places the source catches.
-/

set_option autoImplicit false

/-! ## JavaScript strings -/

/-- A JavaScript string: its list of UTF-16 code units. -/
abbrev JStr := List Nat

/-- One code unit of `String.prototype.toLowerCase`, modelled on the ASCII
range: `A`-`Z` (65-90) map to `a`-`z` (97-122), everything else is fixed. -/
def lowerCode (n : Nat) : Nat :=
  if 65 ≤ n ∧ n ≤ 90 then n + 32 else n

/-- `String.prototype.toLowerCase`. -/
def jsToLower (s : JStr) : JStr := s.map lowerCode

/-- The JS whitespace / line-terminator code units removed by
`String.prototype.trim` (space, tab, LF, VT, FF, CR, NBSP). -/
def isWsp (n : Nat) : Bool :=
  n = 32 || n = 9 || n = 10 || n = 11 || n = 12 || n = 13 || n = 160

/-- `String.prototype.trim`: drop leading and trailing whitespace. -/
def jsTrim (s : JStr) : JStr :=
  ((s.dropWhile isWsp).reverse.dropWhile isWsp).reverse

/-- `addr.toLowerCase().trim()`, the normalisation applied throughout the
routing layer's aggregation step. -/
def jsNormalize (s : JStr) : JStr := jsTrim (jsToLower s)

theorem lowerCode_idem (n : Nat) : lowerCode (lowerCode n) = lowerCode n := by
  unfold lowerCode
  by_cases h : 65 ≤ n ∧ n ≤ 90
  · rw [if_pos h, if_neg (by omega)]
  · rw [if_neg h, if_neg h]

theorem jsToLower_idem (s : JStr) : jsToLower (jsToLower s) = jsToLower s := by
  unfold jsToLower
  rw [List.map_map]
  apply List.map_congr_left
  intro a _
  exact lowerCode_idem a

theorem isWsp_lowerCode (n : Nat) : isWsp (lowerCode n) = isWsp n := by
  unfold lowerCode
  by_cases h : 65 ≤ n ∧ n ≤ 90
  · rw [if_pos h]
    have e1 : isWsp (n + 32) = false := by
      unfold isWsp
      simp only [Bool.or_eq_false_iff, decide_eq_false_iff_not]
      omega
    have e2 : isWsp n = false := by
      unfold isWsp
      simp only [Bool.or_eq_false_iff, decide_eq_false_iff_not]
      omega
    rw [e1, e2]
  · rw [if_neg h]

theorem jsToLower_dropWhile (s : JStr) :
    (jsToLower s).dropWhile isWsp = jsToLower (s.dropWhile isWsp) := by
  induction s with
  | nil => rfl
  | cons a l ih =>
    simp only [jsToLower, List.map_cons, List.dropWhile_cons, isWsp_lowerCode]
    by_cases h : isWsp a = true
    · simpa [h, jsToLower] using ih
    · simp [h]

theorem jsToLower_reverse (s : JStr) :
    (jsToLower s).reverse = jsToLower s.reverse := by
  simp [jsToLower, List.map_reverse]

theorem jsToLower_jsTrim (s : JStr) :
    jsToLower (jsTrim s) = jsTrim (jsToLower s) := by
  unfold jsTrim
  rw [← jsToLower_reverse, ← jsToLower_dropWhile, ← jsToLower_reverse,
    ← jsToLower_dropWhile]

theorem jsTrim_eq_rdropWhile (s : JStr) :
    jsTrim s = (s.dropWhile isWsp).rdropWhile isWsp := rfl

theorem isPrefix_dropWhile_eq_self {α : Type} (p : α → Bool) (t u : List α)
    (ht : t.dropWhile p = t) (hu : u <+: t) : u.dropWhile p = u := by
  obtain ⟨r, rfl⟩ := hu
  rw [List.dropWhile_eq_self_iff] at ht ⊢
  intro hl
  have hl' : 0 < (u ++ r).length := by simp; omega
  have := ht hl'
  rwa [List.get_append _ hl] at this

theorem jsTrim_idem (s : JStr) : jsTrim (jsTrim s) = jsTrim s := by
  rw [jsTrim_eq_rdropWhile, jsTrim_eq_rdropWhile]
  have h1 : (s.dropWhile isWsp).dropWhile isWsp = s.dropWhile isWsp :=
    List.dropWhile_idempotent isWsp s
  have h2 := List.rdropWhile_prefix isWsp (s.dropWhile isWsp)
  rw [isPrefix_dropWhile_eq_self isWsp _ _ h1 h2, List.rdropWhile_idempotent]

/-- Normalisation is idempotent: applying `toLowerCase().trim()` to an
already-normalised string changes nothing. -/
theorem jsNormalize_idem (s : JStr) : jsNormalize (jsNormalize s) = jsNormalize s := by
  unfold jsNormalize
  rw [jsToLower_jsTrim, jsToLower_idem, jsTrim_idem]

/-! ## Dictionaries (JS `Map` / plain objects) as association lists -/

/-- `m.set k v` / `m[k] = v`: replace the binding for `k` if present
(keeping its position, as a JS `Map` does), otherwise append. -/
def dset {α : Type} : List (JStr × α) → JStr → α → List (JStr × α)
  | [], k, v => [(k, v)]
  | (k', v') :: rest, k, v =>
    if k' = k then (k, v) :: rest else (k', v') :: dset rest k v

/-- `m.get k` / `m[k]`: the value bound to `k`, if any. -/
def dget {α : Type} : List (JStr × α) → JStr → Option α
  | [], _ => none
  | (k', v') :: rest, k => if k' = k then some v' else dget rest k

/-- The keys of a dictionary. -/
def dkeys {α : Type} (m : List (JStr × α)) : List JStr := m.map Prod.fst

theorem dget_dset_self {α : Type} (m : List (JStr × α)) (k : JStr) (v : α) :
    dget (dset m k v) k = some v := by
  induction m with
  | nil => simp [dset, dget]
  | cons p rest ih =>
    by_cases h : p.1 = k
    · simp [dset, dget, h]
    · simp [dset, dget, h, ih]

theorem dget_dset_ne {α : Type} (m : List (JStr × α)) (k k' : JStr) (v : α)
    (h : k' ≠ k) : dget (dset m k v) k' = dget m k' := by
  induction m with
  | nil => simp [dset, dget, Ne.symm h]
  | cons p rest ih =>
    by_cases hp : p.1 = k
    · simp [dset, dget, hp, Ne.symm h]
    · simp only [dset, if_neg hp, dget]
      by_cases hp' : p.1 = k'
      · simp [hp']
      · simp [hp', ih]

theorem dkeys_dset {α : Type} (m : List (JStr × α)) (k : JStr) (v : α) :
    ∀ x ∈ dkeys (dset m k v), x = k ∨ x ∈ dkeys m := by
  induction m with
  | nil => simp [dset, dkeys]
  | cons p rest ih =>
    intro x hx
    by_cases hp : p.1 = k
    · simp only [dset, if_pos hp, dkeys, List.map_cons, List.mem_cons] at hx
      rcases hx with h | h
      · exact Or.inl h
      · exact Or.inr (by simp [dkeys]; right; simpa [dkeys] using h)
    · simp only [dset, if_neg hp, dkeys, List.map_cons, List.mem_cons] at hx
      rcases hx with h | h
      · exact Or.inr (by simp [dkeys, h])
      · rcases ih x (by simpa [dkeys] using h) with h' | h'
        · exact Or.inl h'
        · exact Or.inr (by simp [dkeys] at h' ⊢; tauto)

theorem dget_isSome_of_mem_dkeys {α : Type} (m : List (JStr × α)) (k : JStr)
    (h : k ∈ dkeys m) : (dget m k).isSome := by
  induction m with
  | nil => simp [dkeys] at h
  | cons p rest ih =>
    by_cases hp : p.1 = k
    · simp [dget, hp]
    · simp only [dkeys, List.map_cons, List.mem_cons] at h
      rcases h with h | h
      · exact absurd h.symm hp
      · simpa [dget, hp] using ih h

theorem dget_eq_none_of_not_mem_dkeys {α : Type} (m : List (JStr × α)) (k : JStr)
    (h : k ∉ dkeys m) : dget m k = none := by
  induction m with
  | nil => rfl
  | cons p rest ih =>
    simp only [dkeys, List.map_cons, List.mem_cons, not_or] at h
    simpa [dget, Ne.symm h.1] using ih h.2

/-! ## Chunking (`for (let i = 0; i < xs.length; i += n) xs.slice(i, i + n)`) -/

/-- Fuel-bounded worker for `chunksOf` (structural recursion keeps it
kernel-evaluable; the fuel `l.length` always suffices). -/
def chunksOfAux {α : Type} (n : Nat) : Nat → List α → List (List α)
  | 0, _ => []
  | _ + 1, [] => []
  | fuel + 1, a :: t =>
    if n = 0 then []
    else (a :: t).take n :: chunksOfAux n fuel ((a :: t).drop n)

/-- Split a list into consecutive chunks of size `n` (the last chunk may be
shorter), as the chunking loops over addresses (30) and coin ids (100) do. -/
def chunksOf {α : Type} (n : Nat) (l : List α) : List (List α) :=
  chunksOfAux n l.length l

theorem chunksOfAux_join {α : Type} (n : Nat) (hn : 0 < n) :
    ∀ (fuel : Nat) (l : List α), l.length ≤ fuel →
      (chunksOfAux n fuel l).flatten = l := by
  intro fuel
  induction fuel with
  | zero =>
    intro l hl
    obtain rfl : l = [] := List.length_eq_zero.mp (by omega)
    rfl
  | succ f ih =>
    intro l hl
    cases l with
    | nil => rfl
    | cons a t =>
      rw [chunksOfAux, if_neg (by omega), List.flatten_cons]
      have hlen : ((a :: t).drop n).length ≤ f := by
        rw [List.length_drop, List.length_cons]
        simp only [List.length_cons] at hl
        omega
      rw [ih _ hlen, List.take_append_drop]

theorem chunksOf_join {α : Type} (n : Nat) (hn : 0 < n) (l : List α) :
    (chunksOf n l).flatten = l :=
  chunksOfAux_join n hn l.length l (Nat.le_refl _)

/-! ## Swap collector (`duneService`: `fetchSwapEvents`, `fetchAllSwapEvents`)

A page request is answered by the environment: `PageResult.rows rs` models a
well-formed Dune response (`res.data.result.rows = rs`), `PageResult.failure`
models a malformed response or a request whose fixed-delay retries were all
exhausted — both yield `[]` in the source. The environment is indexed by the
request number (the k-th page request issued). -/

/-- A raw row of the Dune response, before validation: the three required
fields may be missing (`Option`). -/
structure RawRow where
  token_sold_address : Option JStr
  token_bought_address : Option JStr
  block_time : Option JStr
  amount_usd : Option Rat
  token_pair : Option JStr
  deriving DecidableEq

/-- A validated swap event (`isValidSwapEvent` passed). -/
structure SwapEvent where
  token_sold_address : JStr
  token_bought_address : JStr
  block_time : JStr
  amount_usd : Option Rat
  token_pair : Option JStr
  deriving DecidableEq

/-- `isValidSwapEvent`: the three required fields are present (strings). -/
def validateRow (r : RawRow) : Option SwapEvent :=
  match r.token_sold_address, r.token_bought_address, r.block_time with
  | some s, some b, some t =>
    some ⟨s, b, t, r.amount_usd, r.token_pair⟩
  | _, _, _ => none

/-- Outcome of one `fetchSwapEvents` page request (after its internal
fixed-delay retries). -/
inductive PageResult where
  | rows (rs : List RawRow)
  | failure
  deriving DecidableEq

/-- `fetchSwapEvents`: filter the raw rows through `isValidSwapEvent`;
a malformed response or exhausted retries give `[]`. -/
def fetchSwapEventsModel (p : PageResult) : List SwapEvent :=
  match p with
  | .rows rs => rs.filterMap validateRow
  | .failure => []

/-- Number of raw rows the feed served in one page response. -/
def rawCount (p : PageResult) : Nat :=
  match p with
  | .rows rs => rs.length
  | .failure => 0

/-- `batchSize` in `fetchAllSwapEvents`. -/
def batchSize : Nat := 10000

/-- `maxEvents = Infinity` is `none`; `allEvents.length < maxEvents`. -/
def ltMax (n : Nat) (maxEvents : Option Nat) : Bool :=
  match maxEvents with
  | none => true
  | some v => n < v

/-- State of the `fetchAllSwapEvents` while-loop, plus the ghost field
`served` counting raw rows the feed has served so far (used to state the
offset invariant). -/
structure FetchLoopState where
  offset : Nat
  allEvents : List SwapEvent
  consecutiveEmptyPages : Nat
  served : Nat
  deriving DecidableEq

/-- Result of running the `fetchAllSwapEvents` loop: the collected events,
the log of page requests as `(offset, allEvents.length, served)` triples
taken when the request is issued, and whether the loop exited by its own
termination conditions (`true`) rather than by fuel exhaustion. -/
structure FetchRunResult where
  events : List SwapEvent
  requests : List (Nat × Nat × Nat)
  completed : Bool
  deriving DecidableEq

/-- One unfolding of the `while (hasMore && allEvents.length < maxEvents)`
loop of `fetchAllSwapEvents`. `env k` answers the k-th page request. -/
def fetchAllSwapEventsLoop (env : Nat → PageResult) (maxEvents : Option Nat) :
    Nat → Nat → FetchLoopState → FetchRunResult
  | 0, _, st => ⟨st.allEvents, [], false⟩
  | fuel + 1, k, st =>
    if ltMax st.allEvents.length maxEvents then
      let req := (st.offset, st.allEvents.length, st.served)
      let events := fetchSwapEventsModel (env k)
      let served' := st.served + rawCount (env k)
      if events.isEmpty then
        let c := st.consecutiveEmptyPages + 1
        if 2 ≤ c then
          ⟨st.allEvents, [req], true⟩
        else
          let r := fetchAllSwapEventsLoop env maxEvents fuel (k + 1)
            ⟨st.offset, st.allEvents, c, served'⟩
          ⟨r.events, req :: r.requests, r.completed⟩
      else
        let all' := st.allEvents ++ events
        let offset' := st.offset + events.length
        if ltMax all'.length maxEvents then
          if events.length < batchSize then
            -- fewer rows than requested: assume the feed is exhausted
            ⟨all', [req], true⟩
          else
            let r := fetchAllSwapEventsLoop env maxEvents fuel (k + 1)
              ⟨offset', all', 0, served'⟩
            ⟨r.events, req :: r.requests, r.completed⟩
        else
          -- `allEvents.length >= maxEvents`: truncate exactly to `maxEvents`
          ⟨all'.take (maxEvents.getD all'.length), [req], true⟩
    else
      ⟨st.allEvents, [], true⟩

/-- `fetchAllSwapEvents(maxEvents)`: run the paging loop from offset 0. -/
def fetchAllSwapEvents (env : Nat → PageResult) (maxEvents : Option Nat)
    (fuel : Nat) : FetchRunResult :=
  fetchAllSwapEventsLoop env maxEvents fuel 0 ⟨0, [], 0, 0⟩

theorem fetchSwapEventsModel_length_le (p : PageResult) :
    (fetchSwapEventsModel p).length ≤ rawCount p := by
  cases p with
  | rows rs => exact List.length_filterMap_le validateRow rs
  | failure => exact Nat.le_refl 0

/-- Helper: the loop invariant behind C8. Starting from a state whose
offset equals its accumulated event count (and whose event count is at most
the raw rows served), every page request `(offset, accumulated, served)`
issued by the loop satisfies `offset = accumulated ≤ served`. -/
theorem fetchAllSwapEventsLoop_invariant (env : Nat → PageResult)
    (maxE : Option Nat) :
    ∀ fuel k st, st.offset = st.allEvents.length →
      st.allEvents.length ≤ st.served →
      ∀ r ∈ (fetchAllSwapEventsLoop env maxE fuel k st).requests,
        r.1 = r.2.1 ∧ r.2.1 ≤ r.2.2 := by
  intro fuel
  induction fuel with
  | zero =>
    intro k st _ _ r hr
    simp [fetchAllSwapEventsLoop] at hr
  | succ f ih =>
    intro k st h1 h2 r hr
    simp only [fetchAllSwapEventsLoop] at hr
    by_cases hm : ltMax st.allEvents.length maxE = true
    · rw [if_pos hm] at hr
      by_cases he : (fetchSwapEventsModel (env k)).isEmpty = true
      · rw [if_pos he] at hr
        by_cases hc : 2 ≤ st.consecutiveEmptyPages + 1
        · rw [if_pos hc] at hr
          simp only [List.mem_singleton] at hr
          subst hr
          exact ⟨h1, h2⟩
        · rw [if_neg hc] at hr
          simp only [List.mem_cons] at hr
          rcases hr with hr | hr
          · subst hr
            exact ⟨h1, h2⟩
          · exact ih (k + 1)
              ⟨st.offset, st.allEvents, st.consecutiveEmptyPages + 1,
                st.served + rawCount (env k)⟩ h1
              (Nat.le_trans h2 (Nat.le_add_right _ _)) r hr
      · rw [if_neg he] at hr
        by_cases hm2 : ltMax (st.allEvents ++ fetchSwapEventsModel (env k)).length maxE = true
        · rw [if_pos hm2] at hr
          by_cases hs : (fetchSwapEventsModel (env k)).length < batchSize
          · rw [if_pos hs] at hr
            simp only [List.mem_singleton] at hr
            subst hr
            exact ⟨h1, h2⟩
          · rw [if_neg hs] at hr
            simp only [List.mem_cons] at hr
            rcases hr with hr | hr
            · subst hr
              exact ⟨h1, h2⟩
            · refine ih (k + 1) _ ?_ ?_ r hr
              · simp [h1]
              · simp only [List.length_append]
                have := fetchSwapEventsModel_length_le (env k)
                omega
        · rw [if_neg hm2] at hr
          simp only [List.mem_singleton] at hr
          subst hr
          exact ⟨h1, h2⟩
    · rw [if_neg hm] at hr
      simp at hr

/-- The demonstration row whose three required fields are present. -/
def demoGoodRow : RawRow := ⟨some [], some [], some [], none, none⟩

/-- The demonstration row dropped by validation (missing sold address). -/
def demoBadRow : RawRow := ⟨none, some [], some [], none, none⟩

/-- The validated form of `demoGoodRow`. -/
def demoGoodEvent : SwapEvent := ⟨[], [], [], none, none⟩

/-- A feed whose first page serves `batchSize + 1` raw rows of which one is
dropped by validation, and whose second page re-serves a previously served
row (what an offset-addressed feed does when asked for offset
`batchSize < batchSize + 1`). -/
def demoFeed : Nat → PageResult := fun k =>
  if k = 0 then .rows (demoBadRow :: List.replicate batchSize demoGoodRow)
  else if k = 1 then .rows [demoGoodRow]
  else .failure

theorem filterMap_validate_replicate (n : Nat) :
    List.filterMap validateRow (List.replicate n demoGoodRow) =
      List.replicate n demoGoodEvent := by
  induction n with
  | zero => rfl
  | succ m ih =>
    rw [List.replicate_succ, List.replicate_succ, List.filterMap_cons]
    simp [validateRow, demoGoodRow, demoGoodEvent, ih]

/-- Unfolding equation: a non-empty full page within the limit recurses with
offset advanced by the number of *valid* events. -/
theorem fetchAllSwapEventsLoop_step_full (env : Nat → PageResult)
    (maxE : Option Nat) (f fuel k : Nat) (st : FetchLoopState)
    (hf : fuel = f + 1)
    (hm : ltMax st.allEvents.length maxE = true)
    (hne : (fetchSwapEventsModel (env k)).isEmpty = false)
    (hm2 : ltMax (st.allEvents ++ fetchSwapEventsModel (env k)).length maxE = true)
    (hfull : ¬ (fetchSwapEventsModel (env k)).length < batchSize) :
    fetchAllSwapEventsLoop env maxE fuel k st =
      ⟨(fetchAllSwapEventsLoop env maxE f (k + 1)
          ⟨st.offset + (fetchSwapEventsModel (env k)).length,
           st.allEvents ++ fetchSwapEventsModel (env k), 0,
           st.served + rawCount (env k)⟩).events,
       (st.offset, st.allEvents.length, st.served) ::
         (fetchAllSwapEventsLoop env maxE f (k + 1)
           ⟨st.offset + (fetchSwapEventsModel (env k)).length,
            st.allEvents ++ fetchSwapEventsModel (env k), 0,
            st.served + rawCount (env k)⟩).requests,
       (fetchAllSwapEventsLoop env maxE f (k + 1)
          ⟨st.offset + (fetchSwapEventsModel (env k)).length,
           st.allEvents ++ fetchSwapEventsModel (env k), 0,
           st.served + rawCount (env k)⟩).completed⟩ := by
  subst hf
  simp only [fetchAllSwapEventsLoop]
  rw [if_pos hm, if_neg (by simp [hne]), if_pos hm2, if_neg hfull]

/-- Unfolding equation: a non-empty short page within the limit terminates
the loop with the accumulated events. -/
theorem fetchAllSwapEventsLoop_step_short (env : Nat → PageResult)
    (maxE : Option Nat) (f fuel k : Nat) (st : FetchLoopState)
    (hf : fuel = f + 1)
    (hm : ltMax st.allEvents.length maxE = true)
    (hne : (fetchSwapEventsModel (env k)).isEmpty = false)
    (hm2 : ltMax (st.allEvents ++ fetchSwapEventsModel (env k)).length maxE = true)
    (hshort : (fetchSwapEventsModel (env k)).length < batchSize) :
    fetchAllSwapEventsLoop env maxE fuel k st =
      ⟨st.allEvents ++ fetchSwapEventsModel (env k),
       [(st.offset, st.allEvents.length, st.served)], true⟩ := by
  subst hf
  simp only [fetchAllSwapEventsLoop]
  rw [if_pos hm, if_neg (by simp [hne]), if_pos hm2, if_pos hshort]

/-- The demonstration run behind C8: the first page serves `batchSize + 1`
raw rows of which one is invalid, so the second request is issued at offset
`batchSize` although `batchSize + 1` rows were consumed, and the re-served
row is accumulated a second time. -/
theorem demoFeed_run :
    fetchAllSwapEvents demoFeed none 3 =
      ⟨List.replicate (batchSize + 1) demoGoodEvent,
       [(0, 0, 0), (batchSize, batchSize, batchSize + 1)], true⟩ := by
  have e0 : fetchSwapEventsModel (demoFeed 0) =
      List.replicate batchSize demoGoodEvent := by
    show List.filterMap validateRow
      (demoBadRow :: List.replicate batchSize demoGoodRow) = _
    rw [List.filterMap_cons]
    have hbad : validateRow demoBadRow = none := rfl
    rw [hbad, filterMap_validate_replicate]
  have r0 : rawCount (demoFeed 0) = batchSize + 1 := by
    show (demoBadRow :: List.replicate batchSize demoGoodRow).length = _
    simp
  have e1 : fetchSwapEventsModel (demoFeed 1) = [demoGoodEvent] := rfl
  have r1 : rawCount (demoFeed 1) = 1 := rfl
  rw [fetchAllSwapEvents]
  rw [fetchAllSwapEventsLoop_step_full demoFeed none 2 3 0 ⟨0, [], 0, 0⟩ rfl rfl
    (by rw [e0]; rfl) rfl
    (by rw [e0, List.length_replicate]; exact Nat.lt_irrefl _)]
  rw [fetchAllSwapEventsLoop_step_short demoFeed none 1 2 1 _ rfl rfl
    (by rw [e1]; rfl) rfl
    (by rw [e1]; norm_num [batchSize])]
  simp only [e0, e1, r0]
  simp [← List.replicate_succ']

/-- C7: in every page-feed environment, once the swap collector receives two
consecutive empty pages it terminates: the loop exits by its own conditions
(not fuel) and issues at most those two page requests, however many events
the feed could still supply. -/
theorem fetchAllSwapEvents_two_empty_pages_terminates
    (env : Nat → PageResult) (maxE : Option Nat) (fuel k : Nat)
    (st : FetchLoopState) (hf : 2 ≤ fuel)
    (h1 : fetchSwapEventsModel (env k) = [])
    (h2 : fetchSwapEventsModel (env (k + 1)) = []) :
    (fetchAllSwapEventsLoop env maxE fuel k st).completed = true ∧
    (fetchAllSwapEventsLoop env maxE fuel k st).requests.length ≤ 2 := by
  obtain ⟨f, rfl⟩ : ∃ f, fuel = f + 1 + 1 := ⟨fuel - 2, by omega⟩
  simp only [fetchAllSwapEventsLoop]
  by_cases hm : ltMax st.allEvents.length maxE = true
  · rw [if_pos hm, if_pos (by rw [h1]; rfl)]
    by_cases hc : 2 ≤ st.consecutiveEmptyPages + 1
    · rw [if_pos hc]
      exact ⟨rfl, by simp⟩
    · rw [if_neg hc]
      simp only [fetchAllSwapEventsLoop]
      by_cases hm' : ltMax st.allEvents.length maxE = true
      · rw [if_pos hm', if_pos (by rw [h2]; rfl),
          if_pos (by omega : 2 ≤ st.consecutiveEmptyPages + 1 + 1)]
        exact ⟨rfl, by simp⟩
      · rw [if_neg hm']
        exact ⟨rfl, by simp⟩
  · rw [if_neg hm]
    exact ⟨rfl, by simp⟩

/-- Witness for C7 at a concrete feed that always fails (hence only serves
empty pages): the run completes with at most two requests. -/
theorem fetchAllSwapEvents_two_empty_pages_terminates_witness :
    (fetchAllSwapEventsLoop (fun _ => PageResult.failure) none 2 0
        ⟨0, [], 0, 0⟩).completed = true ∧
    (fetchAllSwapEventsLoop (fun _ => PageResult.failure) none 2 0
        ⟨0, [], 0, 0⟩).requests.length ≤ 2 :=
  fetchAllSwapEvents_two_empty_pages_terminates
    (fun _ => PageResult.failure) none 2 0 ⟨0, [], 0, 0⟩
    (by decide) rfl rfl

/-- C8: before every page request the requested offset equals the number of
valid events accumulated so far (and is at most the raw rows served, strictly
fewer when rows were dropped); consequently with a page of `batchSize + 1`
raw rows one of which fails validation, the next request goes out at offset
`batchSize` although `batchSize + 1` rows were already consumed, and the
re-served row is accumulated a second time (`batchSize + 1` events collected
from a feed holding only `batchSize` valid rows). -/
theorem fetchAllSwapEvents_offset_counts_valid_events
    (env : Nat → PageResult) (maxE : Option Nat) (fuel : Nat) :
    (∀ r ∈ (fetchAllSwapEvents env maxE fuel).requests,
      r.1 = r.2.1 ∧ r.2.1 ≤ r.2.2) ∧
    (fetchAllSwapEvents demoFeed none 3).requests =
      [(0, 0, 0), (batchSize, batchSize, batchSize + 1)] ∧
    (fetchAllSwapEvents demoFeed none 3).events =
      List.replicate (batchSize + 1) demoGoodEvent := by
  refine ⟨?_, ?_, ?_⟩
  · exact fetchAllSwapEventsLoop_invariant env maxE fuel 0 ⟨0, [], 0, 0⟩ rfl
      (Nat.le_refl 0)
  · rw [demoFeed_run]
  · rw [demoFeed_run]

/-- Witness for C8: the invariant instantiated at the first request of a
concrete two-page run. -/
theorem fetchAllSwapEvents_offset_counts_valid_events_witness :
    (0, 0, 0) ∈ (fetchAllSwapEvents (fun _ => PageResult.failure) none 2).requests ∧
    ((0, 0, 0) : Nat × Nat × Nat).1 = (0, 0, 0).2.1 ∧
      ((0, 0, 0) : Nat × Nat × Nat).2.1 ≤ (0, 0, 0).2.2 :=
  ⟨by decide,
   (fetchAllSwapEvents_offset_counts_valid_events
      (fun _ => PageResult.failure) none 2).1 (0, 0, 0) (by decide)⟩

/-! ## Event grouping and record building (`routes/tokens.ts`) -/

/-- Per-address swap counters (`{ sells, buys }`). -/
structure SwapCounts where
  sells : Nat
  buys : Nat
  deriving DecidableEq

/-- `''` is falsy in JS: `s || d`. -/
def jsStrOr (s d : JStr) : JStr := if s = [] then d else s

/-- One iteration of the `for (const e of events)` grouping loop: skip
events whose required fields are falsy (empty strings), then bump the
sold address's `sells` and the bought address's `buys` (the extended-data
accumulation feeds only the debug log and the unexposed
`tokenExtendedData`, so it is not modelled). -/
def groupStep (m : List (JStr × SwapCounts)) (e : SwapEvent) :
    List (JStr × SwapCounts) :=
  if e.token_sold_address = [] ∨ e.token_bought_address = [] ∨
      e.block_time = [] then m
  else
    let sellAddr := jsNormalize e.token_sold_address
    let buyAddr := jsNormalize e.token_bought_address
    let sellData := (dget m sellAddr).getD ⟨0, 0⟩
    let m1 := dset m sellAddr ⟨sellData.sells + 1, sellData.buys⟩
    let buyData := (dget m1 buyAddr).getD ⟨0, 0⟩
    dset m1 buyAddr ⟨buyData.sells, buyData.buys + 1⟩

/-- The `grouped` map of `fetchAndProcessTokenData`. -/
def buildGrouped (events : List SwapEvent) : List (JStr × SwapCounts) :=
  events.foldl groupStep []

/-- Which upstream produced a price entry (`source` field). -/
inductive PriceSource where
  | coingecko
  | dexscreener
  deriving DecidableEq

/-- `TokenPriceInfo` as returned by the price fetcher. -/
structure TokenPriceInfo where
  usd : Option Rat
  usd_24h_change : Option Rat
  updatedAt : Option JStr
  buys : Nat
  sells : Nat
  volume24h : Rat
  swapAmount24h : Rat
  lastSwapTime : Option JStr
  pairs : List JStr
  source : Option PriceSource
  deriving DecidableEq

/-- The fallback object used when `prices[normalizedAddr]` is absent. -/
def defaultPriceInfo : TokenPriceInfo :=
  ⟨none, none, none, 0, 0, 0, 0, none, [], none⟩

/-- One CSV metadata row (`metadataService`). -/
structure TokenMeta where
  contract_address : JStr
  symbol : JStr
  name : JStr
  decimals : Int
  deriving DecidableEq

/-- `getTokenMetadata`: first row whose stored (already lowercased)
contract address matches the lowercased query. -/
def getTokenMetadataModel (metadata : List TokenMeta) (address : JStr) :
    Option TokenMeta :=
  metadata.find? (fun t => t.contract_address = jsToLower address)

/-- `info` part of the response DTO. -/
structure TokenInfoDto where
  sells : Nat
  buys : Nat
  bondedAt : Option JStr
  deriving DecidableEq

/-- The externally visible token record (`TokenResponseDto`). -/
structure TokenResponseDto where
  name : JStr
  symbol : JStr
  decimals : Int
  logo : JStr
  contractAddress : JStr
  currentPrice : Option Rat
  priceUpdatedAt : JStr
  last24hVariation : Rat
  info : TokenInfoDto
  deriving DecidableEq

/-- The body of `addresses.map(addr => ...)` in `fetchAndProcessTokenData`:
build one `TokenResponseDto` from the metadata table, the price map and the
swap-count map. -/
def buildTokenRecord (metadata : List TokenMeta)
    (prices : List (JStr × TokenPriceInfo))
    (grouped : List (JStr × SwapCounts)) (nowIso : JStr) (addr : JStr) :
    TokenResponseDto :=
  let normalizedAddr := jsNormalize addr
  let meta := getTokenMetadataModel metadata normalizedAddr
  let priceInfo := (dget prices normalizedAddr).getD defaultPriceInfo
  let swapInfo := (dget grouped normalizedAddr).getD ⟨0, 0⟩
  -- `(priceInfo.sells || 0)` is the identity on a natural-number count
  let totalSells := priceInfo.sells + swapInfo.sells
  let totalBuys := priceInfo.buys + swapInfo.buys
  { name := match meta with | some m => jsStrOr m.name addr | none => addr
    symbol := match meta with | some m => jsStrOr m.symbol addr | none => addr
    -- `meta?.decimals || 0` (0 maps to 0 either way)
    decimals := match meta with | some m => m.decimals | none => 0
    logo := []
    contractAddress := addr
    currentPrice := priceInfo.usd
    priceUpdatedAt := match priceInfo.updatedAt with
      | some s => jsStrOr s nowIso
      | none => nowIso
    last24hVariation := priceInfo.usd_24h_change.getD 0
    info := ⟨totalSells, totalBuys, none⟩ }

/-- The `FILTER_TOKENS_WITHOUT_DATA` predicate of the final filter. -/
def tokenHasData (grouped : List (JStr × SwapCounts))
    (prices : List (JStr × TokenPriceInfo)) (token : TokenResponseDto) :
    Bool :=
  let addr := jsToLower token.contractAddress
  (match dget grouped addr with
   | some g => decide (0 < g.sells) || decide (0 < g.buys)
   | none => false) ||
  (match dget prices addr with
   | some p => p.usd.isSome || decide (0 < p.sells) || decide (0 < p.buys)
   | none => false)

/-- `CONFIG.FILTER_TOKENS_WITHOUT_DATA`. -/
def FILTER_TOKENS_WITHOUT_DATA : Bool := true

/-- The price-source buys count looked up for an address (0 when absent). -/
def priceBuysAt (prices : List (JStr × TokenPriceInfo)) (a : JStr) : Nat :=
  match dget prices a with
  | some p => p.buys
  | none => 0

/-- The price-source sells count looked up for an address (0 when absent). -/
def priceSellsAt (prices : List (JStr × TokenPriceInfo)) (a : JStr) : Nat :=
  match dget prices a with
  | some p => p.sells
  | none => 0

/-- The swap-collector buys count looked up for an address (0 when absent). -/
def swapBuysAt (grouped : List (JStr × SwapCounts)) (a : JStr) : Nat :=
  match dget grouped a with
  | some g => g.buys
  | none => 0

/-- The swap-collector sells count looked up for an address (0 when absent). -/
def swapSellsAt (grouped : List (JStr × SwapCounts)) (a : JStr) : Nat :=
  match dget grouped a with
  | some g => g.sells
  | none => 0

/-- C2: for every address of the input list, the record built for it by the
aggregation step carries `info.buys` equal to the exact sum of the
price-source buys count and the swap-collector buys count at the normalised
address (an absent entry contributing 0), and symmetrically for
`info.sells`; both totals are sums of natural-number counts, so they are
never negative and nothing is counted twice. -/
theorem tokenRecord_combines_counts (metadata : List TokenMeta)
    (prices : List (JStr × TokenPriceInfo))
    (grouped : List (JStr × SwapCounts)) (nowIso : JStr)
    (addresses : List JStr) (addr : JStr) (h : addr ∈ addresses) :
    buildTokenRecord metadata prices grouped nowIso addr ∈
      addresses.map (buildTokenRecord metadata prices grouped nowIso) ∧
    (buildTokenRecord metadata prices grouped nowIso addr).info.buys =
      priceBuysAt prices (jsNormalize addr) +
        swapBuysAt grouped (jsNormalize addr) ∧
    (buildTokenRecord metadata prices grouped nowIso addr).info.sells =
      priceSellsAt prices (jsNormalize addr) +
        swapSellsAt grouped (jsNormalize addr) := by
  refine ⟨List.mem_map_of_mem _ h, ?_, ?_⟩
  · unfold buildTokenRecord priceBuysAt swapBuysAt
    cases hp : dget prices (jsNormalize addr) <;>
      cases hg : dget grouped (jsNormalize addr) <;>
        simp [hp, hg, defaultPriceInfo]
  · unfold buildTokenRecord priceSellsAt swapSellsAt
    cases hp : dget prices (jsNormalize addr) <;>
      cases hg : dget grouped (jsNormalize addr) <;>
        simp [hp, hg, defaultPriceInfo]

/-- Witness for C2 at a concrete one-address input with one price entry and
one swap-count entry: `2 + 3` buys and `5 + 7` sells. -/
theorem tokenRecord_combines_counts_witness :
    ([97] : JStr) ∈ [([97] : JStr)] ∧
    (buildTokenRecord [] [([97], { defaultPriceInfo with buys := 2, sells := 5 })]
        [([97], ⟨7, 3⟩)] [] [97]).info.buys = 2 + 3 ∧
    (buildTokenRecord [] [([97], { defaultPriceInfo with buys := 2, sells := 5 })]
        [([97], ⟨7, 3⟩)] [] [97]).info.sells = 5 + 7 := by
  have h := tokenRecord_combines_counts []
    [([97], { defaultPriceInfo with buys := 2, sells := 5 })]
    [([97], ⟨7, 3⟩)] [] [([97] : JStr)] [97] (by decide)
  refine ⟨by decide, ?_, ?_⟩
  · rw [h.2.1]
    decide
  · rw [h.2.2]
    decide

/-! ## Cache controller (`routes/tokens.ts` module state, refresh, tick) -/

/-- The `lastFetchStatus` record. -/
structure FetchStatus where
  success : Bool
  timestamp : Nat
  error : Option JStr
  duneEventsCount : Nat
  dexScreenerTokensCount : Nat
  coinGeckoTokensCount : Nat
  totalTokensProcessed : Nat
  deriving DecidableEq

/-- The status reset performed at the start of every refresh. -/
def resetStatus (now : Nat) : FetchStatus := ⟨false, now, none, 0, 0, 0, 0⟩

/-- The module-level mutable state of `routes/tokens.ts`. -/
structure TokensState where
  cachedTokenData : List TokenResponseDto
  lastFetchTime : Nat
  metadataLoaded : Bool
  tokenMetadata : List TokenMeta
  isCurrentlyLoading : Bool
  lastFetchStatus : FetchStatus
  deriving DecidableEq

/-- Network requests issued during one invocation, by kind. -/
structure NetCalls where
  swapPageCalls : Nat
  priceCalls : Nat
  idListCalls : Nat
  deriving DecidableEq

/-- Environment of one refresh pass: the outcome each stage would observe
if it runs, and how many requests that stage issues when attempted. -/
structure RefreshEnv where
  metadataResult : Except JStr (List TokenMeta)
  eventsResult : Except JStr (List SwapEvent)
  pricesResult : Except JStr (List (JStr × TokenPriceInfo))
  swapPageCalls : Nat
  priceCalls : Nat
  idListCalls : Nat
  now : Nat
  nowAfter : Nat
  nowIso : JStr

/-- `fetchAndProcessTokenData`: returns the produced data (or the rethrown
error), the module state afterwards (the `finally` clears the loading
flag), and the network requests issued by this invocation. The early
return when `isCurrentlyLoading` is set issues nothing and leaves the
state untouched. -/
def fetchAndProcessTokenData (env : RefreshEnv) (st : TokensState) :
    Except JStr (List TokenResponseDto) × TokensState × NetCalls :=
  if st.isCurrentlyLoading then
    (.ok st.cachedTokenData, st, ⟨0, 0, 0⟩)
  else
    let st1 := { st with isCurrentlyLoading := true,
                         lastFetchStatus := resetStatus env.now }
    match (if st1.metadataLoaded then .ok st1.tokenMetadata
           else env.metadataResult : Except JStr (List TokenMeta)) with
    | .error e =>
      (.error e,
       { st1 with isCurrentlyLoading := false,
                  lastFetchStatus :=
                    { resetStatus env.now with error := some e } },
       ⟨0, 0, 0⟩)
    | .ok metadata =>
      match env.eventsResult with
      | .error e =>
        (.error e,
         { st1 with metadataLoaded := true, tokenMetadata := metadata,
                    isCurrentlyLoading := false,
                    lastFetchStatus :=
                      { resetStatus env.now with error := some e } },
         ⟨env.swapPageCalls, 0, 0⟩)
      | .ok events =>
        let grouped := buildGrouped events
        let addresses := metadata.map (·.contract_address)
        match env.pricesResult with
        | .error e =>
          (.error e,
           { st1 with metadataLoaded := true, tokenMetadata := metadata,
                      isCurrentlyLoading := false,
                      lastFetchStatus :=
                        { resetStatus env.now with
                            duneEventsCount := events.length,
                            error := some e } },
           ⟨env.swapPageCalls, env.priceCalls, env.idListCalls⟩)
        | .ok prices =>
          let allTokenData :=
            addresses.map (buildTokenRecord metadata prices grouped env.nowIso)
          let filtered :=
            if FILTER_TOKENS_WITHOUT_DATA then
              allTokenData.filter (tokenHasData grouped prices)
            else allTokenData
          (.ok filtered,
           { st1 with metadataLoaded := true, tokenMetadata := metadata,
                      isCurrentlyLoading := false,
                      lastFetchStatus :=
                        { success := true, timestamp := env.now, error := none,
                          duneEventsCount := events.length,
                          dexScreenerTokensCount := prices.length,
                          coinGeckoTokensCount :=
                            (prices.filter
                              (fun p => p.2.source = some .coingecko)).length,
                          totalTokensProcessed := filtered.length } },
           ⟨env.swapPageCalls, env.priceCalls, env.idListCalls⟩)

/-- The `setInterval` tick: skip when a refresh is in flight, otherwise run
the refresh; on success install the new snapshot and bump `lastFetchTime`,
on error only log (`catch`) — the state produced by the failed refresh is
kept as-is. -/
def refreshTick (env : RefreshEnv) (st : TokensState) :
    TokensState × NetCalls :=
  if st.isCurrentlyLoading then (st, ⟨0, 0, 0⟩)
  else
    match fetchAndProcessTokenData env st with
    | (.ok data, st', calls) =>
      ({ st' with cachedTokenData := data, lastFetchTime := env.nowAfter },
       calls)
    | (.error _, st', calls) => (st', calls)

/-- C1: when a refresh is already in flight, `fetchAndProcessTokenData`
returns the currently cached snapshot unchanged, leaves the whole module
state untouched and issues zero swap-page, price and identifier-list
requests — so a second refresh never starts while one is running. -/
theorem fetchAndProcess_singleflight (env : RefreshEnv) (st : TokensState)
    (h : st.isCurrentlyLoading = true) :
    fetchAndProcessTokenData env st =
      (.ok st.cachedTokenData, st, ⟨0, 0, 0⟩) := by
  rw [fetchAndProcessTokenData, if_pos h]

/-- Witness for C1 at a concrete loading state. -/
theorem fetchAndProcess_singleflight_witness :
    ((⟨[], 0, false, [], true, resetStatus 0⟩ : TokensState).isCurrentlyLoading
        = true) ∧
    fetchAndProcessTokenData
        ⟨.ok [], .ok [], .ok [], 5, 5, 5, 0, 0, []⟩
        ⟨[], 0, false, [], true, resetStatus 0⟩ =
      (.ok [], ⟨[], 0, false, [], true, resetStatus 0⟩, ⟨0, 0, 0⟩) :=
  ⟨rfl,
   fetchAndProcess_singleflight
     ⟨.ok [], .ok [], .ok [], 5, 5, 5, 0, 0, []⟩
     ⟨[], 0, false, [], true, resetStatus 0⟩ rfl⟩

/-- Helper for C5: whenever `fetchAndProcessTokenData` rethrows an error,
the state it leaves behind keeps the snapshot fields untouched, records
the error in the status, and has cleared the loading flag. -/
theorem fetchAndProcess_error_state (env : RefreshEnv) (st : TokensState)
    (e : JStr) (st' : TokensState) (calls : NetCalls)
    (hl : st.isCurrentlyLoading = false)
    (h : fetchAndProcessTokenData env st = (.error e, st', calls)) :
    st'.cachedTokenData = st.cachedTokenData ∧
    st'.lastFetchTime = st.lastFetchTime ∧
    st'.lastFetchStatus.error = some e ∧
    st'.lastFetchStatus.success = false ∧
    st'.isCurrentlyLoading = false := by
  rw [fetchAndProcessTokenData, if_neg (by simp [hl])] at h
  dsimp only at h
  have hok : ∀ metadata : List TokenMeta,
      (match (Except.ok metadata : Except JStr (List TokenMeta)) with
        | .error e =>
          (Except.error e,
           { st with isCurrentlyLoading := false,
                     lastFetchStatus :=
                       { resetStatus env.now with error := some e } },
           (⟨0, 0, 0⟩ : NetCalls))
        | .ok metadata =>
          match env.eventsResult with
          | .error e =>
            (Except.error e,
             { st with metadataLoaded := true, tokenMetadata := metadata,
                       isCurrentlyLoading := false,
                       lastFetchStatus :=
                         { resetStatus env.now with error := some e } },
             (⟨env.swapPageCalls, 0, 0⟩ : NetCalls))
          | .ok events =>
            let grouped := buildGrouped events
            let addresses := metadata.map (·.contract_address)
            match env.pricesResult with
            | .error e =>
              (Except.error e,
               { st with metadataLoaded := true, tokenMetadata := metadata,
                         isCurrentlyLoading := false,
                         lastFetchStatus :=
                           { resetStatus env.now with
                               duneEventsCount := events.length,
                               error := some e } },
               (⟨env.swapPageCalls, env.priceCalls, env.idListCalls⟩ : NetCalls))
            | .ok prices =>
              let allTokenData :=
                addresses.map
                  (buildTokenRecord metadata prices grouped env.nowIso)
              let filtered :=
                if FILTER_TOKENS_WITHOUT_DATA then
                  allTokenData.filter (tokenHasData grouped prices)
                else allTokenData
              (.ok filtered,
               { st with metadataLoaded := true, tokenMetadata := metadata,
                         isCurrentlyLoading := false,
                         lastFetchStatus :=
                           { success := true, timestamp := env.now,
                             error := none,
                             duneEventsCount := events.length,
                             dexScreenerTokensCount := prices.length,
                             coinGeckoTokensCount :=
                               (prices.filter
                                 (fun p =>
                                   p.2.source = some .coingecko)).length,
                             totalTokensProcessed := filtered.length } },
               (⟨env.swapPageCalls, env.priceCalls,
                  env.idListCalls⟩ : NetCalls)))
        = (.error e, st', calls) →
      st'.cachedTokenData = st.cachedTokenData ∧
      st'.lastFetchTime = st.lastFetchTime ∧
      st'.lastFetchStatus.error = some e ∧
      st'.lastFetchStatus.success = false ∧
      st'.isCurrentlyLoading = false := by
    intro metadata hbody
    dsimp only at hbody
    rcases hev : env.eventsResult with e2 | events
    · rw [hev] at hbody
      dsimp only at hbody
      rw [Prod.mk.injEq, Prod.mk.injEq] at hbody
      obtain ⟨he, hst, -⟩ := hbody
      injection he with he'
      subst he'
      rw [← hst]
      simp [resetStatus]
    · rw [hev] at hbody
      dsimp only at hbody
      rcases hpr : env.pricesResult with e3 | prices
      · rw [hpr] at hbody
        dsimp only at hbody
        rw [Prod.mk.injEq, Prod.mk.injEq] at hbody
        obtain ⟨he, hst, -⟩ := hbody
        injection he with he'
        subst he'
        rw [← hst]
        simp [resetStatus]
      · rw [hpr] at hbody
        dsimp only at hbody
        rw [Prod.mk.injEq] at hbody
        exact absurd hbody.1 (by simp)
  by_cases hml : st.metadataLoaded = true
  · rw [if_pos hml] at h
    exact hok st.tokenMetadata h
  · rw [if_neg hml] at h
    rcases hmr : env.metadataResult with e1 | metadata
    · rw [hmr] at h
      dsimp only at h
      rw [Prod.mk.injEq, Prod.mk.injEq] at h
      obtain ⟨he, hst, -⟩ := h
      injection he with he'
      subst he'
      rw [← hst]
      simp [resetStatus]
    · rw [hmr] at h
      exact hok metadata h

/-- C5: when a refresh pass fails, the tick's `catch` leaves the served
snapshot (`cachedTokenData`, `lastFetchTime`) completely unchanged, records
the failure in `lastFetchStatus`, and produces a plain state — no error
reaches the route handlers, which read `cachedTokenData` directly; the
snapshot is replaced only on the success branch of the tick. -/
theorem refreshTick_failure_preserves_snapshot (env : RefreshEnv)
    (st : TokensState) (e : JStr)
    (h : (fetchAndProcessTokenData env st).1 = .error e) :
    (refreshTick env st).1.cachedTokenData = st.cachedTokenData ∧
    (refreshTick env st).1.lastFetchTime = st.lastFetchTime ∧
    (refreshTick env st).1.lastFetchStatus.error = some e ∧
    (refreshTick env st).1.lastFetchStatus.success = false := by
  have hl : st.isCurrentlyLoading = false := by
    by_contra hcon
    rw [fetchAndProcess_singleflight env st (by simpa using hcon)] at h
    simp at h
  rcases hfp : fetchAndProcessTokenData env st with ⟨r, st', calls⟩
  rw [hfp] at h
  simp only at h
  subst h
  have hstate := fetchAndProcess_error_state env st e st' calls hl hfp
  rw [refreshTick, if_neg (by simp [hl]), hfp]
  exact ⟨hstate.1, hstate.2.1, hstate.2.2.1, hstate.2.2.2.1⟩

/-- Witness for C5 at a concrete failing refresh (the swap-event stage
fails with error `[101]`, i.e. "e"). -/
theorem refreshTick_failure_preserves_snapshot_witness :
    (fetchAndProcessTokenData
        ⟨.ok [], .error [101], .ok [], 1, 0, 0, 7, 9, []⟩
        ⟨[], 3, false, [], false, resetStatus 0⟩).1 = .error [101] ∧
    ((refreshTick ⟨.ok [], .error [101], .ok [], 1, 0, 0, 7, 9, []⟩
        ⟨[], 3, false, [], false, resetStatus 0⟩).1.cachedTokenData = [] ∧
      (refreshTick ⟨.ok [], .error [101], .ok [], 1, 0, 0, 7, 9, []⟩
        ⟨[], 3, false, [], false, resetStatus 0⟩).1.lastFetchTime = 3) := by
  have h := refreshTick_failure_preserves_snapshot
    ⟨.ok [], .error [101], .ok [], 1, 0, 0, 7, 9, []⟩
    ⟨[], 3, false, [], false, resetStatus 0⟩ [101] (by rfl)
  exact ⟨by rfl, h.1, h.2.1⟩

/-! ## Pagination of `GET /tokens` (`routes/tokens.ts`, `utils/pagination.ts`) -/

/-- ECMAScript relative index for `Array.prototype.slice`: negative counts
from the end (clamped at 0), non-negative is clamped at the length. -/
def jsSliceIndex (len : Nat) (i : Int) : Nat :=
  if i < 0 then ((len : Int) + i).toNat else min i.toNat len

/-- `Array.prototype.slice(s, e)`. -/
def jsSlice {α : Type} (l : List α) (s e : Int) : List α :=
  let k := jsSliceIndex l.length s
  let f := jsSliceIndex l.length e
  (l.drop k).take (f - k)

/-- `Number(req.query.page) || 1`, with `none` standing for an absent or
non-numeric parameter (`NaN` is falsy, and so is `0`). -/
def effectivePage (q : Option Int) : Int :=
  match q with
  | none => 1
  | some v => if v = 0 then 1 else v

/-- `Math.min(Number(req.query.limit) || 50, 100)`. -/
def effectiveLimit (q : Option Int) : Int :=
  min (match q with
       | none => 50
       | some v => if v = 0 then 50 else v) 100

/-- `getPagination(page, limit)` from `utils/pagination.ts`. -/
def getPagination (page limit : Int) : Int × Int :=
  (limit, (page - 1) * limit)

/-- The pagination step of the `/tokens` handler applied to the
filtered/sorted data list: `data.slice(offset, offset + limitNum)`. -/
def tokensPageData {α : Type} (data : List α) (qpage qlimit : Option Int) :
    List α :=
  let pageNum := effectivePage qpage
  let limitNum := effectiveLimit qlimit
  let offset := (getPagination pageNum limitNum).2
  jsSlice data offset (offset + limitNum)

/-- The claim's reading of the effective page size ("the requested limit
clamped to at most 100, defaulting to 50 when absent or not a number"):
modelled from the claim's words, for comparison with `effectiveLimit`. -/
def claimEffectiveLimit (q : Option Int) : Int :=
  min (match q with
       | none => 50
       | some v => v) 100

theorem jsSlice_nonneg {α : Type} (l : List α) (s e : Int)
    (hs : 0 ≤ s) (he : 0 ≤ e) :
    jsSlice l s e = (l.drop s.toNat).take (e.toNat - s.toNat) := by
  unfold jsSlice jsSliceIndex
  rw [if_neg (by omega), if_neg (by omega)]
  by_cases hsl : s.toNat ≤ l.length
  · rw [min_eq_left hsl]
    by_cases hel : e.toNat ≤ l.length
    · rw [min_eq_left hel]
    · rw [min_eq_right (by omega)]
      have hlen : (l.drop s.toNat).length = l.length - s.toNat :=
        List.length_drop _ _
      rw [List.take_of_length_le (by omega),
        List.take_of_length_le (by omega)]
  · rw [min_eq_right (by omega)]
    have h1 : l.drop s.toNat = [] := List.drop_eq_nil_of_le (by omega)
    have h2 : l.drop l.length = [] := List.drop_eq_nil_of_le (Nat.le_refl _)
    simp only []
    rw [h1, h2]
    simp

/-- C9 counterexample: for `limit=0` (a number) the claim's effective page
size is `min(0, 100) = 0`, but the handler's `Number(...) || 50` treats `0`
as falsy and serves up to 50 records: with one cached record the response
carries 1 record, not at most 0. -/
theorem tokensPageData_limit_zero_counterexample :
    tokensPageData [(0 : Nat)] none (some 0) = [0] ∧
    claimEffectiveLimit (some 0) = 0 ∧
    ¬ (((tokensPageData [(0 : Nat)] none (some 0)).length : Int) ≤
        claimEffectiveLimit (some 0)) := by
  refine ⟨by decide, by decide, by decide⟩

/-- C9 amended: for a positive effective page and positive effective limit
(the code defaults the limit to 50 when it is absent, not a number, or
zero — not only when absent or not a number), the effective limit is at
most 100 and the returned data is the filtered/sorted sequence from offset
`(page - 1) * limit`, at most `limit` records. -/
theorem tokensPageData_paginates {α : Type} (data : List α)
    (qp ql : Option Int) (hp : 1 ≤ effectivePage qp)
    (hl : 1 ≤ effectiveLimit ql) :
    effectiveLimit ql ≤ 100 ∧
    tokensPageData data qp ql =
      (data.drop ((effectivePage qp - 1) * effectiveLimit ql).toNat).take
        (effectiveLimit ql).toNat ∧
    (tokensPageData data qp ql).length ≤ (effectiveLimit ql).toNat := by
  have hoff : 0 ≤ (effectivePage qp - 1) * effectiveLimit ql :=
    mul_nonneg (by omega) (by omega)
  have hend : 0 ≤ (effectivePage qp - 1) * effectiveLimit ql +
      effectiveLimit ql := by omega
  have hslice : tokensPageData data qp ql =
      (data.drop ((effectivePage qp - 1) * effectiveLimit ql).toNat).take
        (((effectivePage qp - 1) * effectiveLimit ql +
            effectiveLimit ql).toNat -
          ((effectivePage qp - 1) * effectiveLimit ql).toNat) := by
    unfold tokensPageData getPagination
    exact jsSlice_nonneg data _ _ hoff hend
  have htn : ((effectivePage qp - 1) * effectiveLimit ql +
        effectiveLimit ql).toNat -
      ((effectivePage qp - 1) * effectiveLimit ql).toNat =
      (effectiveLimit ql).toNat := by omega
  refine ⟨min_le_right _ _, ?_, ?_⟩
  · rw [hslice, htn]
  · rw [hslice, htn]
    exact List.length_take_le _ _

/-- Witness for the amended C9 at default query parameters and two cached
records. -/
theorem tokensPageData_paginates_witness :
    (1 ≤ effectivePage none ∧ 1 ≤ effectiveLimit none) ∧
    (effectiveLimit none ≤ 100 ∧
     tokensPageData [(0 : Nat), 1] none none =
       (List.drop ((effectivePage none - 1) * effectiveLimit none).toNat
          [(0 : Nat), 1]).take (effectiveLimit none).toNat ∧
     (tokensPageData [(0 : Nat), 1] none none).length ≤
       (effectiveLimit none).toNat) :=
  ⟨⟨by decide, by decide⟩,
   tokensPageData_paginates [(0 : Nat), 1] none none (by decide) (by decide)⟩

/-! ## Price fetcher (`metadataService.fetchPrices`): CoinGecko primary
pass, DexScreener fallback in 30-address chunks. The CoinGecko result map
and the response to the i-th DexScreener chunk request are environment
parameters. -/

/-- One pair record of a DexScreener response, reduced to the consumed
fields. `baseTokenAddress` is `pair.baseToken?.address` (`none` when
`baseToken` is missing); `priceUsd` is already the `parseFloat` result of a
truthy `priceUsd` string (`none` for a missing or empty string). -/
structure DexPair where
  baseTokenAddress : Option JStr
  priceUsd : Option Rat
  priceChange24h : Option Rat
  txnsH24 : Option (Nat × Nat)
  volumeH24 : Option Rat
  deriving DecidableEq

/-- `x || null` on a JS number: `0` is falsy. -/
def jsRatOrNull (o : Option Rat) : Option Rat :=
  match o with
  | some x => if x = 0 then none else some x
  | none => none

/-- `x || 0` on a JS number (`0` maps to `0` either way). -/
def jsRatOr0 (o : Option Rat) : Rat :=
  match o with
  | some x => x
  | none => 0

/-- The `TokenPriceInfo` written for an address priced by CoinGecko. -/
def coingeckoPriceInfo (price : Rat) (nowIso : JStr) : TokenPriceInfo :=
  ⟨some price, none, some nowIso, 0, 0, 0, 0, none, [], some .coingecko⟩

/-- Processing of one DexScreener pair (`response.data.forEach(pair => ...)`):
skipped unless `pair.baseToken && pair.baseToken.address` is truthy, then
written under the lowercased base-token address. -/
def processDexPair (nowIso : JStr) (m : List (JStr × TokenPriceInfo))
    (pair : DexPair) : List (JStr × TokenPriceInfo) :=
  match pair.baseTokenAddress with
  | some a =>
    if a = [] then m
    else
      dset m (jsToLower a)
        ⟨pair.priceUsd, jsRatOrNull pair.priceChange24h, some nowIso,
         (pair.txnsH24.getD (0, 0)).1, (pair.txnsH24.getD (0, 0)).2,
         jsRatOr0 pair.volumeH24, 0, none, [], some .dexscreener⟩
  | none => m

/-- The primary pass of `fetchPrices`: seed the result with every non-null
CoinGecko price and collect the set of addresses it resolved. -/
def coingeckoPass (cg : List (JStr × Option Rat)) (nowIso : JStr) :
    List (JStr × TokenPriceInfo) × List JStr :=
  cg.foldl
    (fun acc av =>
      match av.2 with
      | some price =>
        (dset acc.1 av.1 (coingeckoPriceInfo price nowIso), av.1 :: acc.2)
      | none => acc)
    ([], [])

/-- `fetchPrices`: primary pass, then the DexScreener fallback over the
addresses the primary did not resolve, in chunks of 30; a chunk request
that fails is logged and skipped. -/
def fetchPricesModel (cg : List (JStr × Option Rat))
    (ds : Nat → Except JStr (List DexPair)) (contractAddresses : List JStr)
    (nowIso : JStr) : List (JStr × TokenPriceInfo) :=
  let pass := coingeckoPass cg nowIso
  let addressesForDexScreener :=
    (contractAddresses.map jsToLower).filter (fun a => ¬ a ∈ pass.2)
  let chunks := chunksOf 30 addressesForDexScreener
  chunks.enum.foldl
    (fun m ic =>
      match ds ic.1 with
      | .ok pairs => pairs.foldl (processDexPair nowIso) m
      | .error _ => m)
    pass.1

theorem processDexPair_preserves (nowIso : JStr)
    (m : List (JStr × TokenPriceInfo)) (pair : DexPair) (a : JStr)
    (h : ∀ b, pair.baseTokenAddress = some b → jsToLower b ≠ a) :
    dget (processDexPair nowIso m pair) a = dget m a := by
  unfold processDexPair
  rcases hb : pair.baseTokenAddress with _ | b
  · rfl
  · dsimp only
    by_cases hbe : b = []
    · rw [if_pos hbe]
    · rw [if_neg hbe]
      exact dget_dset_ne _ _ _ _ (Ne.symm (h b hb))

theorem foldl_processDexPair_preserves (nowIso : JStr) (a : JStr) :
    ∀ (ps : List DexPair) (m : List (JStr × TokenPriceInfo)),
      (∀ p ∈ ps, ∀ b, p.baseTokenAddress = some b → jsToLower b ≠ a) →
      dget (ps.foldl (processDexPair nowIso) m) a = dget m a := by
  intro ps
  induction ps with
  | nil => intro m _; rfl
  | cons p rest ih =>
    intro m hps
    rw [List.foldl_cons, ih _ (fun q hq => hps q (List.mem_cons_of_mem _ hq)),
      processDexPair_preserves nowIso m p a (hps p (List.mem_cons_self _ _))]

/-- C3 counterexample: with CoinGecko resolving address "a" at price 1, a
fallback response (for the chunk containing only the unresolved "b") that
carries a pair whose base token is "A" overwrites the primary entry: the
final entry for "a" is attributed to DexScreener. -/
theorem fetchPrices_fallback_overwrites_counterexample :
    dget (coingeckoPass [(([97] : JStr), some 1)] []).1 [97] =
      some (coingeckoPriceInfo 1 []) ∧
    (dget (fetchPricesModel [(([97] : JStr), some 1)]
        (fun _ => .ok [⟨some [65], some 2, none, none, none⟩])
        [[97], [98]] []) [97]).map (fun p => p.source) =
      some (some PriceSource.dexscreener) := by
  constructor
  · decide
  · decide

/-- C3 amended: a fallback response never overwrites a primary entry
*provided* none of its pairs carries a (lowercased) base-token address equal
to that primary-resolved address — the guard the source lacks: it keys
fallback writes by the response's own base-token address, not by the
queried addresses, so a response mentioning a primary-resolved address
does overwrite it (see the counterexample). -/
theorem fetchPrices_fallback_preserves_primary
    (cg : List (JStr × Option Rat)) (ds : Nat → Except JStr (List DexPair))
    (addrs : List JStr) (nowIso : JStr) (a : JStr) (v : TokenPriceInfo)
    (hp : dget (coingeckoPass cg nowIso).1 a = some v)
    (hnd : ∀ i pairs, ds i = .ok pairs → ∀ p ∈ pairs, ∀ b,
        p.baseTokenAddress = some b → jsToLower b ≠ a) :
    dget (fetchPricesModel cg ds addrs nowIso) a = some v := by
  unfold fetchPricesModel
  have hfold : ∀ (l : List (Nat × List JStr))
      (m : List (JStr × TokenPriceInfo)), dget m a = some v →
      dget (l.foldl (fun m ic =>
        match ds ic.1 with
        | .ok pairs => pairs.foldl (processDexPair nowIso) m
        | .error _ => m) m) a = some v := by
    intro l
    induction l with
    | nil => intro m hm; exact hm
    | cons ic rest ih =>
      intro m hm
      rw [List.foldl_cons]
      apply ih
      rcases hds : ds ic.1 with e | pairs
      · exact hm
      · show dget (pairs.foldl (processDexPair nowIso) m) a = some v
        rw [foldl_processDexPair_preserves nowIso a pairs m (hnd ic.1 pairs hds)]
        exact hm
  exact hfold _ _ hp

/-- Witness for the amended C3: a fallback response whose only pair names a
different base token leaves the primary entry for "a" in place. -/
theorem fetchPrices_fallback_preserves_primary_witness :
    dget (coingeckoPass [(([97] : JStr), some 1)] []).1 [97] =
      some (coingeckoPriceInfo 1 []) ∧
    dget (fetchPricesModel [(([97] : JStr), some 1)]
        (fun _ => .ok [⟨some [99], some 2, none, none, none⟩])
        [[97], [98]] []) [97] = some (coingeckoPriceInfo 1 []) :=
  ⟨by decide,
   fetchPrices_fallback_preserves_primary [(([97] : JStr), some 1)]
     (fun _ => .ok [⟨some [99], some 2, none, none, none⟩])
     [[97], [98]] [] [97] (coingeckoPriceInfo 1 []) (by decide)
     (by
       intro i pairs hps p hp b hb
       simp only [Except.ok.injEq] at hps
       subst hps
       simp only [List.mem_singleton] at hp
       subst hp
       simp only [DexPair.baseTokenAddress] at hb
       injection hb with hb'
       subst hb'
       decide)⟩

/-! ## CoinGecko batched price service (`priceService`)

`fetchSeiTokensList` resolves to `env.tokensMap` (its own 12h-cached bulk
listing is not a price request); `env.resp k` answers the k-th HTTP price
request of the invocation (chunk requests and individual retries alike).
The source's outer `try/catch` around the batch body is unreachable in
this model because every failure of `fetchPricesForCoinIds` and
`fetchPriceById` is caught at the chunk level, exactly as in the code. -/

/-- One per-address price cache entry. -/
structure CacheEntry where
  price : Option Rat
  timestamp : Nat
  deriving DecidableEq

/-- The module-level `priceCache`. -/
abbrev PriceCache := List (JStr × CacheEntry)

/-- `CACHE_DURATION` (30 minutes, in ms). -/
def CACHE_DURATION : Nat := 30 * 60 * 1000

/-- `MAX_RETRIES`. -/
def MAX_RETRIES : Nat := 3

/-- `MAX_IDS_PER_REQUEST`. -/
def MAX_IDS_PER_REQUEST : Nat := 100

/-- Response to one CoinGecko `simple/price` request: parsed data mapping
each coin id to its optional `usd` field, a 429, or another error. -/
inductive ApiResp where
  | ok (data : List (JStr × Option Rat))
  | rateLimited
  | err
  deriving DecidableEq

/-- Environment of one batched price fetch. -/
structure CGEnv where
  resp : Nat → ApiResp
  tokensMap : List (JStr × JStr)
  now : Nat

/-- `fetchPriceById(coinId, normalizedAddress, retryCount)`: one request per
attempt; on 429 retry with backoff while `retryCount < MAX_RETRIES`, then
serve the (possibly stale) cache entry if one exists, else rethrow. Returns
(outcome, cache, next request index, issued requests). -/
def fetchPriceById (env : CGEnv) (cache : PriceCache) (coinId addr : JStr)
    (k : Nat) (retryCount : Nat) :
    Except Unit (Option Rat) × PriceCache × Nat × List (List JStr) :=
  match env.resp k with
  | .ok data =>
    match dget data coinId with
    | some (some p) =>
      if p = 0 then
        -- `response.data[coinId].usd` falsy: cache a null result
        (.ok none, dset cache addr ⟨none, env.now⟩, k + 1, [[coinId]])
      else
        (.ok (some p), dset cache addr ⟨some p, env.now⟩, k + 1, [[coinId]])
    | some none => (.ok none, dset cache addr ⟨none, env.now⟩, k + 1, [[coinId]])
    | none => (.ok none, dset cache addr ⟨none, env.now⟩, k + 1, [[coinId]])
  | .rateLimited =>
    if _h : retryCount < MAX_RETRIES then
      let r := fetchPriceById env cache coinId addr (k + 1) (retryCount + 1)
      (r.1, r.2.1, r.2.2.1, [coinId] :: r.2.2.2)
    else
      match dget cache addr with
      | some entry => (.ok entry.price, cache, k + 1, [[coinId]])
      | none => (.error (), cache, k + 1, [[coinId]])
  | .err => (.error (), cache, k + 1, [[coinId]])
termination_by MAX_RETRIES - retryCount
decreasing_by omega

/-- The call-site wrapper around `fetchPriceById` (the `try/catch` in the
chunk-failure fallback of `fetchCoinGeckoPrices`): a caught error becomes
a "no price" answer. -/
def fetchPriceByIdCaught (env : CGEnv) (cache : PriceCache)
    (coinId addr : JStr) (k : Nat) : Option Rat × PriceCache :=
  match fetchPriceById env cache coinId addr k 0 with
  | (.ok p, c, _, _) => (p, c)
  | (.error _, c, _, _) => (none, c)

/-- The stale-cache answer the claim describes: the cached price if an
entry exists (fresh or stale), else "no price". -/
def staleCachePrice (cache : PriceCache) (addr : JStr) : Option Rat :=
  match dget cache addr with
  | some e => e.price
  | none => none

/-- `fetchPricesForCoinIds(coinIds, retryCount)`: one batched request per
attempt, retried on 429 up to `MAX_RETRIES`, then rethrowing. -/
def fetchPricesForCoinIds (env : CGEnv) (coinIds : List JStr)
    (k retryCount : Nat) :
    Except Unit (List (JStr × Option Rat)) × Nat × List (List JStr) :=
  match env.resp k with
  | .ok data => (.ok data, k + 1, [coinIds])
  | .rateLimited =>
    if _h : retryCount < MAX_RETRIES then
      let r := fetchPricesForCoinIds env coinIds (k + 1) (retryCount + 1)
      (r.1, r.2.1, coinIds :: r.2.2)
    else (.error (), k + 1, [coinIds])
  | .err => (.error (), k + 1, [coinIds])
termination_by MAX_RETRIES - retryCount
decreasing_by omega

/-- Accumulated state of one `fetchCoinGeckoPrices` invocation. -/
structure CGRun where
  prices : List (JStr × Option Rat)
  cache : PriceCache
  k : Nat
  log : List (List JStr)
  deriving DecidableEq

/-- The cache-partition pass: addresses with a fresh entry are answered
from the cache, the rest are pushed onto `uncachedAddresses`. -/
def partitionCachedAux (env : CGEnv) (cache : PriceCache)
    (prices : List (JStr × Option Rat)) (uncached : List JStr) :
    List JStr → List (JStr × Option Rat) × List JStr
  | [] => (prices, uncached)
  | a :: rest =>
    match dget cache a with
    | some c =>
      if env.now - c.timestamp < CACHE_DURATION then
        partitionCachedAux env cache (dset prices a c.price) uncached rest
      else
        partitionCachedAux env cache prices (uncached ++ [a]) rest
    | none => partitionCachedAux env cache prices (uncached ++ [a]) rest

/-- The id-resolution pass: map uncached addresses to coin ids via the
tokens map; unresolved addresses get a cached and returned null price. -/
def resolveIdsAux (env : CGEnv) (coinIds : List JStr)
    (idToAddr : List (JStr × JStr)) (prices : List (JStr × Option Rat))
    (cache : PriceCache) :
    List JStr → List JStr × List (JStr × JStr) ×
      List (JStr × Option Rat) × PriceCache
  | [] => (coinIds, idToAddr, prices, cache)
  | a :: rest =>
    match dget env.tokensMap a with
    | some i =>
      resolveIdsAux env (coinIds ++ [i]) (dset idToAddr i a) prices cache rest
    | none =>
      resolveIdsAux env coinIds idToAddr (dset prices a none)
        (dset cache a ⟨none, env.now⟩) rest

/-- Processing of one entry of a successful batch response:
`batchPrices[coinId]?.usd || null` written under the address the id maps
back to (ids not in `coinIdToAddress` are skipped). -/
def processBatchEntry (env : CGEnv) (idToAddr : List (JStr × JStr))
    (acc : List (JStr × Option Rat) × PriceCache)
    (entry : JStr × Option Rat) : List (JStr × Option Rat) × PriceCache :=
  match dget idToAddr entry.1 with
  | some addr =>
    let price := jsRatOrNull entry.2
    (dset acc.1 addr price, dset acc.2 addr ⟨price, env.now⟩)
  | none => acc

/-- The per-id fallback of a failed chunk: an individual `fetchPriceById`
wrapped in `try/catch` (a caught error answers null). -/
def fallbackEntry (env : CGEnv) (idToAddr : List (JStr × JStr))
    (s : CGRun) (coinId : JStr) : CGRun :=
  match dget idToAddr coinId with
  | some addr =>
    match fetchPriceById env s.cache coinId addr s.k 0 with
    | (.ok price, c, k', log') =>
      ⟨dset s.prices addr price, c, k', s.log ++ log'⟩
    | (.error _, c, k', log') =>
      ⟨dset s.prices addr none, c, k', s.log ++ log'⟩
  | none => s

/-- Processing of one coin-id chunk: a batched request with retries; on
failure, individual requests per id of the chunk. -/
def processChunk (env : CGEnv) (idToAddr : List (JStr × JStr))
    (s : CGRun) (chunk : List JStr) : CGRun :=
  match fetchPricesForCoinIds env chunk s.k 0 with
  | (.ok batchPrices, k', log') =>
    let pc := batchPrices.foldl (processBatchEntry env idToAddr)
      (s.prices, s.cache)
    ⟨pc.1, pc.2, k', s.log ++ log'⟩
  | (.error _, k', log') =>
    chunk.foldl (fallbackEntry env idToAddr) ⟨s.prices, s.cache, k', s.log ++ log'⟩

/-- `fetchCoinGeckoPrices(addresses)`: partition against the cache, resolve
ids, then fetch chunk by chunk. -/
def fetchCoinGeckoPrices (env : CGEnv) (cache0 : PriceCache)
    (addresses : List JStr) : CGRun :=
  let normalized := addresses.map jsToLower
  let part := partitionCachedAux env cache0 [] [] normalized
  if part.2 = [] then ⟨part.1, cache0, 0, []⟩
  else
    let res := resolveIdsAux env [] [] part.1 cache0 part.2
    if res.1 = [] then ⟨res.2.2.1, res.2.2.2, 0, []⟩
    else
      (chunksOf MAX_IDS_PER_REQUEST res.1).foldl (processChunk env res.2.1)
        ⟨res.2.2.1, res.2.2.2, 0, []⟩

/-- How many of the issued requests carry a given coin id. -/
def requestsFor (log : List (List JStr)) (i : JStr) : Nat :=
  log.countP (fun req => decide (i ∈ req))

/-- Whether an address has a fresh cache entry at call time. -/
def isFresh (env : CGEnv) (cache : PriceCache) (a : JStr) : Bool :=
  match dget cache a with
  | some e => decide (env.now - e.timestamp < CACHE_DURATION)
  | none => false

theorem fetchPriceById_all429 (env : CGEnv) (cache : PriceCache)
    (coinId addr : JStr) (h429 : ∀ n, env.resp n = .rateLimited) :
    ∀ (m k retryCount : Nat), MAX_RETRIES - retryCount = m →
      (fetchPriceById env cache coinId addr k retryCount).1 =
        (match dget cache addr with
         | some e => .ok e.price
         | none => .error ()) ∧
      (fetchPriceById env cache coinId addr k retryCount).2.1 = cache := by
  intro m
  induction m with
  | zero =>
    intro k retryCount hm
    rw [fetchPriceById, h429 k]
    dsimp only
    rw [dif_neg (by omega)]
    rcases hc : dget cache addr with _ | e
    · exact ⟨rfl, rfl⟩
    · exact ⟨rfl, rfl⟩
  | succ m' ih =>
    intro k retryCount hm
    rw [fetchPriceById, h429 k]
    dsimp only
    rw [dif_pos (by omega : retryCount < MAX_RETRIES)]
    exact ih (k + 1) (retryCount + 1) (by omega)

/-- C4: when every attempt of a price request is answered 429 up to the
retry cap, the caller of `fetchPriceById` (its `try/catch` wrapper in the
batch-fallback loop) observes the cached price when a cache entry exists —
fresh or stale — and "no price" when none does; no exception escapes and
the cache is left unchanged. -/
theorem fetchPriceById_rate_limited_uses_cache (env : CGEnv)
    (cache : PriceCache) (coinId addr : JStr) (k : Nat)
    (h429 : ∀ n, env.resp n = .rateLimited) :
    fetchPriceByIdCaught env cache coinId addr k =
      (staleCachePrice cache addr, cache) := by
  have h := fetchPriceById_all429 env cache coinId addr h429 MAX_RETRIES k 0 rfl
  unfold fetchPriceByIdCaught staleCachePrice
  rcases hfp : fetchPriceById env cache coinId addr k 0 with ⟨r1, c, rest⟩
  rw [hfp] at h
  dsimp only at h
  rcases hc : dget cache addr with _ | e
  · rw [hc] at h
    rw [h.1, h.2]
  · rw [hc] at h
    rw [h.1, h.2]

/-- Witness for C4: an always-rate-limited environment with a (stale) cache
entry at price 5 yields 5; with no entry it yields "no price". -/
theorem fetchPriceById_rate_limited_uses_cache_witness :
    (∀ n, (⟨fun _ => .rateLimited, [], 0⟩ : CGEnv).resp n = .rateLimited) ∧
    fetchPriceByIdCaught ⟨fun _ => .rateLimited, [], 0⟩
        [([97], ⟨some 5, 0⟩)] [105] [97] 0 =
      (some 5, [([97], ⟨some 5, 0⟩)]) ∧
    fetchPriceByIdCaught ⟨fun _ => .rateLimited, [], 0⟩ [] [105] [97] 0 =
      (none, []) :=
  ⟨fun _ => rfl,
   by
     rw [fetchPriceById_rate_limited_uses_cache
       ⟨fun _ => .rateLimited, [], 0⟩ [([97], ⟨some 5, 0⟩)] [105] [97] 0
       (fun _ => rfl)]
     rfl,
   by
     rw [fetchPriceById_rate_limited_uses_cache
       ⟨fun _ => .rateLimited, [], 0⟩ [] [105] [97] 0 (fun _ => rfl)]
     rfl⟩

/-- Whether a response is a parsed-ok response. -/
def isOkResp (r : ApiResp) : Bool :=
  match r with
  | .ok _ => true
  | .rateLimited => false
  | .err => false

theorem countP_mem_of_flatten_count_zero {cs : List (List JStr)} {i : JStr}
    (h : cs.flatten.count i = 0) :
    cs.countP (fun c => decide (i ∈ c)) = 0 := by
  rw [List.countP_eq_zero]
  intro c hc
  simp only [decide_eq_true_eq]
  intro hmem
  have : i ∈ cs.flatten := List.mem_flatten.mpr ⟨c, hc, hmem⟩
  rw [← List.count_pos_iff_mem] at this
  omega

theorem countP_mem_of_flatten_count_one {cs : List (List JStr)} {i : JStr}
    (h : cs.flatten.count i = 1) :
    cs.countP (fun c => decide (i ∈ c)) = 1 := by
  induction cs with
  | nil => simp at h
  | cons c rest ih =>
    rw [List.flatten_cons, List.count_append] at h
    by_cases hc : c.count i = 0
    · have hrest : rest.flatten.count i = 1 := by omega
      have hnotmem : i ∉ c := by
        rw [← List.count_pos_iff_mem]
        omega
      rw [List.countP_cons, ih hrest]
      simp [hnotmem]
    · have hmem : i ∈ c := by
        rw [← List.count_pos_iff_mem]
        omega
      have hrest : rest.flatten.count i = 0 := by omega
      rw [List.countP_cons, countP_mem_of_flatten_count_zero hrest]
      simp [hmem]

theorem count_filterMap_zero {us : List JStr} {f : JStr → Option JStr}
    {i : JStr} (h : ∀ c ∈ us, f c ≠ some i) :
    (us.filterMap f).count i = 0 := by
  rw [List.count_eq_zero]
  intro hmem
  rw [List.mem_filterMap] at hmem
  obtain ⟨c, hc, hfc⟩ := hmem
  exact h c hc hfc

theorem count_filterMap_one {us : List JStr} {f : JStr → Option JStr}
    {b i : JStr} (hnd : us.Nodup) (hb : b ∈ us) (hf : f b = some i)
    (huniq : ∀ c ∈ us, f c = some i → c = b) :
    (us.filterMap f).count i = 1 := by
  induction us with
  | nil => simp at hb
  | cons u rest ih =>
    rw [List.nodup_cons] at hnd
    rcases List.mem_cons.mp hb with rfl | hbr
    · rw [List.filterMap_cons, hf, List.count_cons_self]
      have hz : (rest.filterMap f).count i = 0 := by
        apply count_filterMap_zero
        intro c hc hfc
        have : c = b := huniq c (List.mem_cons_of_mem _ hc) hfc
        subst this
        exact hnd.1 hc
      omega
    · have hub : u ≠ b := by
        rintro rfl
        exact hnd.1 hbr
      rw [List.filterMap_cons]
      rcases hfu : f u with _ | j
      · exact ih hnd.2 hbr
          (fun c hc hfc => huniq c (List.mem_cons_of_mem _ hc) hfc)
      · have hji : i ≠ j := by
          rintro rfl
          exact hub (huniq u (List.mem_cons_self _ _) hfu)
        show List.count i (j :: rest.filterMap f) = 1
        rw [List.count_cons_of_ne hji]
        exact ih hnd.2 hbr
          (fun c hc hfc => huniq c (List.mem_cons_of_mem _ hc) hfc)

theorem partitionCached_uncached (env : CGEnv) (cache : PriceCache) :
    ∀ (l : List JStr) (prices : List (JStr × Option Rat)) (us : List JStr),
      (partitionCachedAux env cache prices us l).2 =
        us ++ l.filter (fun b => !(isFresh env cache b)) := by
  intro l
  induction l with
  | nil =>
    intro p us
    simp [partitionCachedAux]
  | cons a rest ih =>
    intro p us
    unfold partitionCachedAux
    rcases hc : dget cache a with _ | e
    · dsimp only
      rw [ih]
      have hf : isFresh env cache a = false := by simp [isFresh, hc]
      rw [List.filter_cons]
      simp [hf]
    · dsimp only
      by_cases hlt : env.now - e.timestamp < CACHE_DURATION
      · rw [if_pos hlt, ih]
        have hf : isFresh env cache a = true := by simp [isFresh, hc, hlt]
        rw [List.filter_cons]
        simp [hf]
      · rw [if_neg hlt, ih]
        have hf : isFresh env cache a = false := by simp [isFresh, hc, hlt]
        rw [List.filter_cons]
        simp [hf]

theorem partitionCached_prices_stable (env : CGEnv) (cache : PriceCache)
    (a : JStr) (e : CacheEntry) (he : dget cache a = some e)
    (hlt : env.now - e.timestamp < CACHE_DURATION) :
    ∀ (l : List JStr) (p : List (JStr × Option Rat)) (us : List JStr),
      dget p a = some e.price →
      dget (partitionCachedAux env cache p us l).1 a = some e.price := by
  intro l
  induction l with
  | nil =>
    intro p us hp
    exact hp
  | cons b rest ih =>
    intro p us hp
    unfold partitionCachedAux
    rcases hcb : dget cache b with _ | eb
    · exact ih p _ hp
    · dsimp only
      by_cases hltb : env.now - eb.timestamp < CACHE_DURATION
      · rw [if_pos hltb]
        by_cases hba : b = a
        · subst hba
          rw [hcb] at he
          injection he with he'
          subst he'
          exact ih _ _ (by rw [dget_dset_self])
        · exact ih _ _ (by rw [dget_dset_ne _ _ _ _ (Ne.symm hba)]; exact hp)
      · rw [if_neg hltb]
        exact ih p _ hp

theorem partitionCached_prices_fresh (env : CGEnv) (cache : PriceCache)
    (a : JStr) (e : CacheEntry) (he : dget cache a = some e)
    (hlt : env.now - e.timestamp < CACHE_DURATION) :
    ∀ (l : List JStr) (p : List (JStr × Option Rat)) (us : List JStr),
      a ∈ l →
      dget (partitionCachedAux env cache p us l).1 a = some e.price := by
  intro l
  induction l with
  | nil =>
    intro p us hmem
    simp at hmem
  | cons b rest ih =>
    intro p us hmem
    unfold partitionCachedAux
    rcases List.mem_cons.mp hmem with rfl | hrest
    · rw [he]
      dsimp only
      rw [if_pos hlt]
      exact partitionCached_prices_stable env cache a e he hlt rest _ _
        (by rw [dget_dset_self])
    · rcases hcb : dget cache b with _ | eb
      · exact ih p _ hrest
      · dsimp only
        by_cases hltb : env.now - eb.timestamp < CACHE_DURATION
        · rw [if_pos hltb]
          exact ih _ _ hrest
        · rw [if_neg hltb]
          exact ih p _ hrest

theorem resolveIds_coinIds (env : CGEnv) :
    ∀ (us ids : List JStr) (m : List (JStr × JStr))
      (p : List (JStr × Option Rat)) (c : PriceCache),
      (resolveIdsAux env ids m p c us).1 =
        ids ++ us.filterMap (fun b => dget env.tokensMap b) := by
  intro us
  induction us with
  | nil =>
    intro ids m p c
    simp [resolveIdsAux]
  | cons b rest ih =>
    intro ids m p c
    unfold resolveIdsAux
    rcases ht : dget env.tokensMap b with _ | i
    · dsimp only
      rw [ih, List.filterMap_cons, ht]
    · dsimp only
      rw [ih, List.filterMap_cons, ht]
      simp

theorem resolveIds_idToAddr_mem (env : CGEnv) :
    ∀ (us ids : List JStr) (m : List (JStr × JStr))
      (p : List (JStr × Option Rat)) (c : PriceCache) (i addr : JStr),
      dget (resolveIdsAux env ids m p c us).2.1 i = some addr →
      dget m i = some addr ∨
        (addr ∈ us ∧ dget env.tokensMap addr = some i) := by
  intro us
  induction us with
  | nil =>
    intro ids m p c i addr h
    exact Or.inl h
  | cons b rest ih =>
    intro ids m p c i addr h
    unfold resolveIdsAux at h
    rcases ht : dget env.tokensMap b with _ | j
    · rw [ht] at h
      rcases ih _ _ _ _ _ _ h with h' | h'
      · exact Or.inl h'
      · exact Or.inr ⟨List.mem_cons_of_mem _ h'.1, h'.2⟩
    · rw [ht] at h
      rcases ih _ _ _ _ _ _ h with h' | h'
      · by_cases hij : j = i
        · subst hij
          rw [dget_dset_self] at h'
          injection h' with h''
          subst h''
          exact Or.inr ⟨List.mem_cons_self _ _, ht⟩
        · rw [dget_dset_ne _ _ _ _ (Ne.symm hij)] at h'
          exact Or.inl h'
      · exact Or.inr ⟨List.mem_cons_of_mem _ h'.1, h'.2⟩

theorem resolveIds_prices_stable (env : CGEnv) (a : JStr) :
    ∀ (us ids : List JStr) (m : List (JStr × JStr))
      (p : List (JStr × Option Rat)) (c : PriceCache),
      dget p a = some none →
      dget (resolveIdsAux env ids m p c us).2.2.1 a = some none := by
  intro us
  induction us with
  | nil =>
    intro ids m p c hp
    exact hp
  | cons b rest ih =>
    intro ids m p c hp
    unfold resolveIdsAux
    rcases ht : dget env.tokensMap b with _ | j
    · by_cases hba : b = a
      · subst hba
        exact ih _ _ _ _ (by rw [dget_dset_self])
      · exact ih _ _ _ _ (by rw [dget_dset_ne _ _ _ _ (Ne.symm hba)]; exact hp)
    · exact ih _ _ _ _ hp

theorem resolveIds_prices_unresolved (env : CGEnv) (a : JStr)
    (ha : dget env.tokensMap a = none) :
    ∀ (us ids : List JStr) (m : List (JStr × JStr))
      (p : List (JStr × Option Rat)) (c : PriceCache),
      a ∈ us →
      dget (resolveIdsAux env ids m p c us).2.2.1 a = some none := by
  intro us
  induction us with
  | nil =>
    intro ids m p c hmem
    simp at hmem
  | cons b rest ih =>
    intro ids m p c hmem
    unfold resolveIdsAux
    rcases List.mem_cons.mp hmem with rfl | hrest
    · rw [ha]
      exact resolveIds_prices_stable env a rest _ _ _ _ (by rw [dget_dset_self])
    · rcases ht : dget env.tokensMap b with _ | j
      · exact ih _ _ _ _ hrest
      · exact ih _ _ _ _ hrest

theorem resolveIds_prices_notmem (env : CGEnv) (a : JStr) :
    ∀ (us ids : List JStr) (m : List (JStr × JStr))
      (p : List (JStr × Option Rat)) (c : PriceCache),
      a ∉ us →
      dget (resolveIdsAux env ids m p c us).2.2.1 a = dget p a := by
  intro us
  induction us with
  | nil =>
    intro ids m p c _
    rfl
  | cons b rest ih =>
    intro ids m p c hnm
    have hba : b ≠ a := fun hba => hnm (hba ▸ List.mem_cons_self _ _)
    have hrest : a ∉ rest := fun hr => hnm (List.mem_cons_of_mem _ hr)
    unfold resolveIdsAux
    rcases ht : dget env.tokensMap b with _ | j
    · dsimp only
      rw [ih _ _ _ _ hrest, dget_dset_ne _ _ _ _ (Ne.symm hba)]
    · exact ih _ _ _ _ hrest

theorem fetchPricesForCoinIds_ok (env : CGEnv) (ids : List JStr)
    (k retry : Nat) (d : List (JStr × Option Rat))
    (h : env.resp k = .ok d) :
    fetchPricesForCoinIds env ids k retry = (.ok d, k + 1, [ids]) := by
  rw [fetchPricesForCoinIds, h]

theorem processChunk_ok (env : CGEnv) (idToAddr : List (JStr × JStr))
    (hok : ∀ n, isOkResp (env.resp n) = true) (s : CGRun)
    (chunk : List JStr) :
    ∃ d, env.resp s.k = .ok d ∧
      processChunk env idToAddr s chunk =
        ⟨(d.foldl (processBatchEntry env idToAddr) (s.prices, s.cache)).1,
         (d.foldl (processBatchEntry env idToAddr) (s.prices, s.cache)).2,
         s.k + 1, s.log ++ [chunk]⟩ := by
  rcases hr : env.resp s.k with d | _ | _
  · refine ⟨d, rfl, ?_⟩
    rw [processChunk, fetchPricesForCoinIds_ok env chunk s.k 0 d hr]
  · have := hok s.k
    rw [hr] at this
    simp [isOkResp] at this
  · have := hok s.k
    rw [hr] at this
    simp [isOkResp] at this

theorem processChunks_log (env : CGEnv) (idToAddr : List (JStr × JStr))
    (hok : ∀ n, isOkResp (env.resp n) = true) :
    ∀ (cs : List (List JStr)) (s : CGRun),
      (cs.foldl (processChunk env idToAddr) s).log = s.log ++ cs := by
  intro cs
  induction cs with
  | nil =>
    intro s
    simp
  | cons c rest ih =>
    intro s
    rw [List.foldl_cons]
    obtain ⟨d, _, heq⟩ := processChunk_ok env idToAddr hok s c
    rw [heq, ih]
    simp

theorem processBatchEntry_foldl_preserves (env : CGEnv)
    (idToAddr : List (JStr × JStr)) (na : JStr)
    (hna : ∀ i addr, dget idToAddr i = some addr → addr ≠ na) :
    ∀ (d : List (JStr × Option Rat))
      (pc : List (JStr × Option Rat) × PriceCache),
      dget (d.foldl (processBatchEntry env idToAddr) pc).1 na =
        dget pc.1 na := by
  intro d
  induction d with
  | nil =>
    intro pc
    rfl
  | cons entry rest ih =>
    intro pc
    rw [List.foldl_cons, ih]
    unfold processBatchEntry
    rcases hm : dget idToAddr entry.1 with _ | addr
    · rfl
    · dsimp only
      exact dget_dset_ne _ _ _ _ (Ne.symm (hna entry.1 addr hm))

theorem processChunks_prices_preserved (env : CGEnv)
    (idToAddr : List (JStr × JStr))
    (hok : ∀ n, isOkResp (env.resp n) = true) (na : JStr)
    (hna : ∀ i addr, dget idToAddr i = some addr → addr ≠ na) :
    ∀ (cs : List (List JStr)) (s : CGRun),
      dget (cs.foldl (processChunk env idToAddr) s).prices na =
        dget s.prices na := by
  intro cs
  induction cs with
  | nil =>
    intro s
    rfl
  | cons c rest ih =>
    intro s
    rw [List.foldl_cons]
    obtain ⟨d, _, heq⟩ := processChunk_ok env idToAddr hok s c
    rw [heq, ih]
    exact processBatchEntry_foldl_preserves env idToAddr na hna d _

theorem fetchCoinGeckoPrices_all_cached (env : CGEnv) (cache0 : PriceCache)
    (addresses : List JStr)
    (h : (partitionCachedAux env cache0 [] [] (addresses.map jsToLower)).2
        = []) :
    fetchCoinGeckoPrices env cache0 addresses =
      ⟨(partitionCachedAux env cache0 [] [] (addresses.map jsToLower)).1,
       cache0, 0, []⟩ := by
  simp only [fetchCoinGeckoPrices]
  rw [if_pos h]

theorem fetchCoinGeckoPrices_no_ids (env : CGEnv) (cache0 : PriceCache)
    (addresses : List JStr)
    (h : (partitionCachedAux env cache0 [] [] (addresses.map jsToLower)).2
        ≠ [])
    (h2 : (resolveIdsAux env [] []
        (partitionCachedAux env cache0 [] [] (addresses.map jsToLower)).1
        cache0
        (partitionCachedAux env cache0 [] [] (addresses.map jsToLower)).2).1
        = []) :
    fetchCoinGeckoPrices env cache0 addresses =
      ⟨(resolveIdsAux env [] []
          (partitionCachedAux env cache0 [] [] (addresses.map jsToLower)).1
          cache0
          (partitionCachedAux env cache0 [] []
            (addresses.map jsToLower)).2).2.2.1,
       (resolveIdsAux env [] []
          (partitionCachedAux env cache0 [] [] (addresses.map jsToLower)).1
          cache0
          (partitionCachedAux env cache0 [] []
            (addresses.map jsToLower)).2).2.2.2, 0, []⟩ := by
  simp only [fetchCoinGeckoPrices]
  rw [if_neg h, if_pos h2]

theorem fetchCoinGeckoPrices_chunked (env : CGEnv) (cache0 : PriceCache)
    (addresses : List JStr)
    (h : (partitionCachedAux env cache0 [] [] (addresses.map jsToLower)).2
        ≠ [])
    (h2 : (resolveIdsAux env [] []
        (partitionCachedAux env cache0 [] [] (addresses.map jsToLower)).1
        cache0
        (partitionCachedAux env cache0 [] [] (addresses.map jsToLower)).2).1
        ≠ []) :
    fetchCoinGeckoPrices env cache0 addresses =
      (chunksOf MAX_IDS_PER_REQUEST
        (resolveIdsAux env [] []
          (partitionCachedAux env cache0 [] [] (addresses.map jsToLower)).1
          cache0
          (partitionCachedAux env cache0 [] []
            (addresses.map jsToLower)).2).1).foldl
        (processChunk env
          (resolveIdsAux env [] []
            (partitionCachedAux env cache0 [] [] (addresses.map jsToLower)).1
            cache0
            (partitionCachedAux env cache0 [] []
              (addresses.map jsToLower)).2).2.1)
        ⟨(resolveIdsAux env [] []
            (partitionCachedAux env cache0 [] [] (addresses.map jsToLower)).1
            cache0
            (partitionCachedAux env cache0 [] []
              (addresses.map jsToLower)).2).2.2.1,
         (resolveIdsAux env [] []
            (partitionCachedAux env cache0 [] [] (addresses.map jsToLower)).1
            cache0
            (partitionCachedAux env cache0 [] []
              (addresses.map jsToLower)).2).2.2.2, 0, []⟩ := by
  simp only [fetchCoinGeckoPrices]
  rw [if_neg h, if_neg h2]

/-- C6 (amended): within one batched price-fetch call whose normalised
addresses are pairwise distinct, whose id mapping is injective on them,
and in which every batch request succeeds at its first attempt: an
address with a cache entry younger than the TTL is answered from the
cache and its coin id occurs in no issued request; an address whose entry
is older than the TTL (or absent) that resolves to a coin id has that id
in exactly one issued request; and such an address *not* resolving to a
coin id is answered "no price" with no request issued for it — the code
never re-fetches it, contrary to the claim's "exactly one re-fetch". -/
theorem fetchCoinGeckoPrices_cache_discipline (env : CGEnv)
    (cache0 : PriceCache) (addresses : List JStr) (a : JStr)
    (ha : a ∈ addresses)
    (hnd : (addresses.map jsToLower).Nodup)
    (hinj : ∀ b c i, b ∈ addresses.map jsToLower →
      c ∈ addresses.map jsToLower → dget env.tokensMap b = some i →
      dget env.tokensMap c = some i → b = c)
    (hok : ∀ n, isOkResp (env.resp n) = true) :
    (∀ e, dget cache0 (jsToLower a) = some e →
      env.now - e.timestamp < CACHE_DURATION →
      dget (fetchCoinGeckoPrices env cache0 addresses).prices
          (jsToLower a) = some e.price ∧
      ∀ i, dget env.tokensMap (jsToLower a) = some i →
        requestsFor (fetchCoinGeckoPrices env cache0 addresses).log i = 0) ∧
    (isFresh env cache0 (jsToLower a) = false →
      ∀ i, dget env.tokensMap (jsToLower a) = some i →
        requestsFor (fetchCoinGeckoPrices env cache0 addresses).log i = 1) ∧
    (isFresh env cache0 (jsToLower a) = false →
      dget env.tokensMap (jsToLower a) = none →
      dget (fetchCoinGeckoPrices env cache0 addresses).prices
          (jsToLower a) = some none) := by
  have hna : jsToLower a ∈ addresses.map jsToLower := List.mem_map_of_mem _ ha
  have hus : (partitionCachedAux env cache0 [] []
      (addresses.map jsToLower)).2 =
      (addresses.map jsToLower).filter (fun b => !(isFresh env cache0 b)) := by
    rw [partitionCached_uncached, List.nil_append]
  have husnd : (partitionCachedAux env cache0 [] []
      (addresses.map jsToLower)).2.Nodup := by
    rw [hus]
    exact hnd.filter _
  have hussub : ∀ c, c ∈ (partitionCachedAux env cache0 [] []
      (addresses.map jsToLower)).2 → c ∈ addresses.map jsToLower := by
    intro c hc
    rw [hus] at hc
    exact (List.mem_filter.mp hc).1
  have hcoin : (resolveIdsAux env [] []
      (partitionCachedAux env cache0 [] [] (addresses.map jsToLower)).1
      cache0
      (partitionCachedAux env cache0 [] [] (addresses.map jsToLower)).2).1 =
      ((partitionCachedAux env cache0 [] []
        (addresses.map jsToLower)).2).filterMap
        (fun b => dget env.tokensMap b) := by
    rw [resolveIds_coinIds, List.nil_append]
  have hvals : ∀ i' addr, dget (resolveIdsAux env [] []
      (partitionCachedAux env cache0 [] [] (addresses.map jsToLower)).1
      cache0
      (partitionCachedAux env cache0 [] []
        (addresses.map jsToLower)).2).2.1 i' = some addr →
      addr ∈ (partitionCachedAux env cache0 [] []
        (addresses.map jsToLower)).2 ∧
      dget env.tokensMap addr = some i' := by
    intro i' addr hm
    rcases resolveIds_idToAddr_mem env _ _ _ _ _ i' addr hm with h' | h'
    · simp [dget] at h'
    · exact h'
  refine ⟨?_, ?_, ?_⟩
  · -- fresh: answered from the cache, id never requested
    intro e he hlt
    have hfr : isFresh env cache0 (jsToLower a) = true := by
      simp [isFresh, he, hlt]
    have hnotus : jsToLower a ∉ (partitionCachedAux env cache0 [] []
        (addresses.map jsToLower)).2 := by
      rw [hus]
      intro hmem
      have := (List.mem_filter.mp hmem).2
      rw [hfr] at this
      simp at this
    have hpart1 : dget (partitionCachedAux env cache0 [] []
        (addresses.map jsToLower)).1 (jsToLower a) = some e.price :=
      partitionCached_prices_fresh env cache0 (jsToLower a) e he hlt _ [] []
        hna
    constructor
    · -- the returned price
      by_cases h1 : (partitionCachedAux env cache0 [] []
          (addresses.map jsToLower)).2 = []
      · rw [fetchCoinGeckoPrices_all_cached env cache0 addresses h1]
        exact hpart1
      · have hpr1 : dget (resolveIdsAux env [] []
            (partitionCachedAux env cache0 [] []
              (addresses.map jsToLower)).1 cache0
            (partitionCachedAux env cache0 [] []
              (addresses.map jsToLower)).2).2.2.1 (jsToLower a) =
            some e.price := by
          rw [resolveIds_prices_notmem env _ _ _ _ _ _ hnotus]
          exact hpart1
        by_cases h2 : (resolveIdsAux env [] []
            (partitionCachedAux env cache0 [] []
              (addresses.map jsToLower)).1 cache0
            (partitionCachedAux env cache0 [] []
              (addresses.map jsToLower)).2).1 = []
        · rw [fetchCoinGeckoPrices_no_ids env cache0 addresses h1 h2]
          exact hpr1
        · rw [fetchCoinGeckoPrices_chunked env cache0 addresses h1 h2]
          rw [processChunks_prices_preserved env _ hok (jsToLower a)
            (fun i' addr hm => by
              have := hvals i' addr hm
              intro heq
              rw [heq] at this
              exact hnotus this.1)]
          exact hpr1
    · -- no request carries its id
      intro i hi
      by_cases h1 : (partitionCachedAux env cache0 [] []
          (addresses.map jsToLower)).2 = []
      · rw [fetchCoinGeckoPrices_all_cached env cache0 addresses h1]
        rfl
      · by_cases h2 : (resolveIdsAux env [] []
            (partitionCachedAux env cache0 [] []
              (addresses.map jsToLower)).1 cache0
            (partitionCachedAux env cache0 [] []
              (addresses.map jsToLower)).2).1 = []
        · rw [fetchCoinGeckoPrices_no_ids env cache0 addresses h1 h2]
          rfl
        · rw [fetchCoinGeckoPrices_chunked env cache0 addresses h1 h2]
          unfold requestsFor
          rw [processChunks_log env _ hok]
          rw [List.nil_append]
          apply countP_mem_of_flatten_count_zero
          rw [chunksOf_join MAX_IDS_PER_REQUEST (by norm_num [MAX_IDS_PER_REQUEST])]
          rw [hcoin]
          apply count_filterMap_zero
          intro c hc hfc
          have hceq : c = jsToLower a :=
            hinj c (jsToLower a) i (hussub c hc) hna hfc hi
          rw [hceq] at hc
          exact hnotus hc
  · -- stale or absent, resolving to a coin id: exactly one request
    intro hst i hi
    have hmemus : jsToLower a ∈ (partitionCachedAux env cache0 [] []
        (addresses.map jsToLower)).2 := by
      rw [hus]
      exact List.mem_filter.mpr ⟨hna, by rw [hst]; rfl⟩
    have h1 : (partitionCachedAux env cache0 [] []
        (addresses.map jsToLower)).2 ≠ [] := List.ne_nil_of_mem hmemus
    have hmemid : i ∈ (resolveIdsAux env [] []
        (partitionCachedAux env cache0 [] []
          (addresses.map jsToLower)).1 cache0
        (partitionCachedAux env cache0 [] []
          (addresses.map jsToLower)).2).1 := by
      rw [hcoin]
      exact List.mem_filterMap.mpr ⟨jsToLower a, hmemus, hi⟩
    have h2 := List.ne_nil_of_mem hmemid
    rw [fetchCoinGeckoPrices_chunked env cache0 addresses h1 h2]
    unfold requestsFor
    rw [processChunks_log env _ hok, List.nil_append]
    apply countP_mem_of_flatten_count_one
    rw [chunksOf_join MAX_IDS_PER_REQUEST (by norm_num [MAX_IDS_PER_REQUEST])]
    rw [hcoin]
    exact count_filterMap_one husnd hmemus hi
      (fun c hc hfc => hinj c (jsToLower a) i (hussub c hc) hna hfc hi)
  · -- stale or absent, unresolved: answered "no price"
    intro hst hnone
    have hmemus : jsToLower a ∈ (partitionCachedAux env cache0 [] []
        (addresses.map jsToLower)).2 := by
      rw [hus]
      exact List.mem_filter.mpr ⟨hna, by rw [hst]; rfl⟩
    have h1 : (partitionCachedAux env cache0 [] []
        (addresses.map jsToLower)).2 ≠ [] := List.ne_nil_of_mem hmemus
    have hpr1 : dget (resolveIdsAux env [] []
        (partitionCachedAux env cache0 [] []
          (addresses.map jsToLower)).1 cache0
        (partitionCachedAux env cache0 [] []
          (addresses.map jsToLower)).2).2.2.1 (jsToLower a) = some none :=
      resolveIds_prices_unresolved env (jsToLower a) hnone _ _ _ _ _ hmemus
    by_cases h2 : (resolveIdsAux env [] []
        (partitionCachedAux env cache0 [] []
          (addresses.map jsToLower)).1 cache0
        (partitionCachedAux env cache0 [] []
          (addresses.map jsToLower)).2).1 = []
    · rw [fetchCoinGeckoPrices_no_ids env cache0 addresses h1 h2]
      exact hpr1
    · rw [fetchCoinGeckoPrices_chunked env cache0 addresses h1 h2]
      rw [processChunks_prices_preserved env _ hok (jsToLower a)
        (fun i' addr hm => by
          have := hvals i' addr hm
          intro heq
          rw [heq] at this
          rw [hnone] at this
          exact Option.noConfusion this.2)]
      exact hpr1

/-- C6 counterexample: address "a" (97) has no cache entry and no coin id
in the tokens map, so the batched fetch answers "no price" after issuing
*zero* price requests — not the "exactly one network re-fetch" the claim
asserts for every stale-or-absent address. -/
theorem fetchCoinGeckoPrices_unresolved_zero_fetches_counterexample :
    isFresh ⟨fun _ => .ok [], [], 0⟩ [] [97] = false ∧
    (fetchCoinGeckoPrices ⟨fun _ => .ok [], [], 0⟩ [] [[97]]).log = [] ∧
    dget (fetchCoinGeckoPrices ⟨fun _ => .ok [], [], 0⟩ [] [[97]]).prices
        [97] = some none := by
  refine ⟨by decide, by decide, by decide⟩

/-- Witness for the amended C6: a stale (absent-entry) address resolving to
coin id "i" (105) is re-fetched by exactly one request. -/
theorem fetchCoinGeckoPrices_cache_discipline_witness :
    isFresh ⟨fun _ => .ok [], [([97], [105])], 0⟩ [] (jsToLower [97])
      = false ∧
    requestsFor (fetchCoinGeckoPrices ⟨fun _ => .ok [], [([97], [105])], 0⟩
        [] [[97]]).log [105] = 1 := by
  have h := fetchCoinGeckoPrices_cache_discipline
    ⟨fun _ => .ok [], [([97], [105])], 0⟩ [] [[97]] [97]
    (by decide) (by decide)
    (by
      intro b c i hb hc _ _
      simp only [List.map_cons, List.map_nil, List.mem_singleton] at hb hc
      rw [hb, hc])
    (fun _ => rfl)
  exact ⟨by decide, h.2.1 (by decide) [105] (by decide)⟩

/-! ## Key normalisation (C10) -/

theorem dkeys_dset_prop {α : Type} (P : JStr → Prop)
    (m : List (JStr × α)) (k : JStr) (v : α)
    (hm : ∀ x ∈ dkeys m, P x) (hk : P k) :
    ∀ x ∈ dkeys (dset m k v), P x := by
  intro x hx
  rcases dkeys_dset m k v x hx with rfl | h
  · exact hk
  · exact hm x h

theorem partitionCached_prices_keys (env : CGEnv) (cache : PriceCache)
    (P : JStr → Prop) :
    ∀ (l : List JStr) (p : List (JStr × Option Rat)) (us : List JStr),
      (∀ x ∈ dkeys p, P x) → (∀ x ∈ l, P x) →
      ∀ x ∈ dkeys (partitionCachedAux env cache p us l).1, P x := by
  intro l
  induction l with
  | nil =>
    intro p us hp _
    exact hp
  | cons b rest ih =>
    intro p us hp hl
    unfold partitionCachedAux
    rcases hc : dget cache b with _ | e
    · exact ih _ _ hp (fun x hx => hl x (List.mem_cons_of_mem _ hx))
    · dsimp only
      by_cases hlt : env.now - e.timestamp < CACHE_DURATION
      · rw [if_pos hlt]
        exact ih _ _
          (dkeys_dset_prop P p b e.price hp (hl b (List.mem_cons_self _ _)))
          (fun x hx => hl x (List.mem_cons_of_mem _ hx))
      · rw [if_neg hlt]
        exact ih _ _ hp (fun x hx => hl x (List.mem_cons_of_mem _ hx))

theorem resolveIds_prices_keys (env : CGEnv) (P : JStr → Prop) :
    ∀ (us ids : List JStr) (m : List (JStr × JStr))
      (p : List (JStr × Option Rat)) (c : PriceCache),
      (∀ x ∈ dkeys p, P x) → (∀ x ∈ us, P x) →
      ∀ x ∈ dkeys (resolveIdsAux env ids m p c us).2.2.1, P x := by
  intro us
  induction us with
  | nil =>
    intro ids m p c hp _
    exact hp
  | cons b rest ih =>
    intro ids m p c hp hl
    unfold resolveIdsAux
    rcases ht : dget env.tokensMap b with _ | j
    · exact ih _ _ _ _
        (dkeys_dset_prop P p b none hp (hl b (List.mem_cons_self _ _)))
        (fun x hx => hl x (List.mem_cons_of_mem _ hx))
    · exact ih _ _ _ _ hp (fun x hx => hl x (List.mem_cons_of_mem _ hx))

theorem processBatchEntry_keys (env : CGEnv)
    (idToAddr : List (JStr × JStr)) (P : JStr → Prop)
    (hvals : ∀ i addr, dget idToAddr i = some addr → P addr) :
    ∀ (d : List (JStr × Option Rat))
      (pc : List (JStr × Option Rat) × PriceCache),
      (∀ x ∈ dkeys pc.1, P x) →
      ∀ x ∈ dkeys (d.foldl (processBatchEntry env idToAddr) pc).1, P x := by
  intro d
  induction d with
  | nil =>
    intro pc hp
    exact hp
  | cons entry rest ih =>
    intro pc hp
    rw [List.foldl_cons]
    apply ih
    unfold processBatchEntry
    rcases hm : dget idToAddr entry.1 with _ | addr
    · exact hp
    · dsimp only
      exact dkeys_dset_prop P pc.1 addr _ hp (hvals entry.1 addr hm)

theorem fallbackEntry_keys (env : CGEnv) (idToAddr : List (JStr × JStr))
    (P : JStr → Prop)
    (hvals : ∀ i addr, dget idToAddr i = some addr → P addr) :
    ∀ (chunk : List JStr) (s : CGRun),
      (∀ x ∈ dkeys s.prices, P x) →
      ∀ x ∈ dkeys ((chunk.foldl (fallbackEntry env idToAddr) s)).prices,
        P x := by
  intro chunk
  induction chunk with
  | nil =>
    intro s hp
    exact hp
  | cons coinId rest ih =>
    intro s hp
    rw [List.foldl_cons]
    apply ih
    unfold fallbackEntry
    rcases hm : dget idToAddr coinId with _ | addr
    · exact hp
    · dsimp only
      rcases hfp : fetchPriceById env s.cache coinId addr s.k 0
        with ⟨r, c, k', log'⟩
      rcases r with p | u
      · exact dkeys_dset_prop P s.prices addr _ hp (hvals coinId addr hm)
      · exact dkeys_dset_prop P s.prices addr _ hp (hvals coinId addr hm)

theorem processChunk_keys (env : CGEnv) (idToAddr : List (JStr × JStr))
    (P : JStr → Prop)
    (hvals : ∀ i addr, dget idToAddr i = some addr → P addr)
    (s : CGRun) (chunk : List JStr)
    (hs : ∀ x ∈ dkeys s.prices, P x) :
    ∀ x ∈ dkeys (processChunk env idToAddr s chunk).prices, P x := by
  unfold processChunk
  rcases hfp : fetchPricesForCoinIds env chunk s.k 0 with ⟨r, k', log'⟩
  rcases r with u | d
  · dsimp only
    exact fallbackEntry_keys env idToAddr P hvals chunk _ hs
  · dsimp only
    exact processBatchEntry_keys env idToAddr P hvals d (s.prices, s.cache) hs

theorem processChunks_keys (env : CGEnv) (idToAddr : List (JStr × JStr))
    (P : JStr → Prop)
    (hvals : ∀ i addr, dget idToAddr i = some addr → P addr) :
    ∀ (cs : List (List JStr)) (s : CGRun),
      (∀ x ∈ dkeys s.prices, P x) →
      ∀ x ∈ dkeys ((cs.foldl (processChunk env idToAddr) s)).prices, P x := by
  intro cs
  induction cs with
  | nil =>
    intro s hp
    exact hp
  | cons c rest ih =>
    intro s hp
    rw [List.foldl_cons]
    exact ih _ (processChunk_keys env idToAddr P hvals s c hp)

theorem fetchCoinGeckoPrices_keys_lowered (env : CGEnv)
    (cache0 : PriceCache) (addresses : List JStr) :
    ∀ x ∈ dkeys (fetchCoinGeckoPrices env cache0 addresses).prices,
      jsToLower x = x := by
  have hlnorm : ∀ x ∈ addresses.map jsToLower, jsToLower x = x := by
    intro x hx
    rcases List.mem_map.mp hx with ⟨y, _, rfl⟩
    exact jsToLower_idem y
  have husmem : ∀ x ∈ (partitionCachedAux env cache0 [] []
      (addresses.map jsToLower)).2, jsToLower x = x := by
    intro x hx
    rw [partitionCached_uncached, List.nil_append] at hx
    exact hlnorm x (List.mem_filter.mp hx).1
  have hpartkeys : ∀ x ∈ dkeys (partitionCachedAux env cache0 [] []
      (addresses.map jsToLower)).1, jsToLower x = x :=
    partitionCached_prices_keys env cache0 _ _ [] []
      (by intro x hx; simp [dkeys] at hx) hlnorm
  have hreskeys : ∀ x ∈ dkeys (resolveIdsAux env [] []
      (partitionCachedAux env cache0 [] [] (addresses.map jsToLower)).1
      cache0
      (partitionCachedAux env cache0 [] []
        (addresses.map jsToLower)).2).2.2.1, jsToLower x = x :=
    resolveIds_prices_keys env _ _ [] [] _ cache0 hpartkeys husmem
  have hvals : ∀ i addr, dget (resolveIdsAux env [] []
      (partitionCachedAux env cache0 [] [] (addresses.map jsToLower)).1
      cache0
      (partitionCachedAux env cache0 [] []
        (addresses.map jsToLower)).2).2.1 i = some addr →
      jsToLower addr = addr := by
    intro i addr hm
    rcases resolveIds_idToAddr_mem env _ _ _ _ _ i addr hm with h' | h'
    · simp [dget] at h'
    · exact husmem addr h'.1
  by_cases h1 : (partitionCachedAux env cache0 [] []
      (addresses.map jsToLower)).2 = []
  · rw [fetchCoinGeckoPrices_all_cached env cache0 addresses h1]
    exact hpartkeys
  · by_cases h2 : (resolveIdsAux env [] []
        (partitionCachedAux env cache0 [] [] (addresses.map jsToLower)).1
        cache0
        (partitionCachedAux env cache0 [] []
          (addresses.map jsToLower)).2).1 = []
    · rw [fetchCoinGeckoPrices_no_ids env cache0 addresses h1 h2]
      exact hreskeys
    · rw [fetchCoinGeckoPrices_chunked env cache0 addresses h1 h2]
      exact processChunks_keys env _ _ hvals _ _ hreskeys

theorem coingeckoPass_keys (nowIso : JStr) (P : JStr → Prop) :
    ∀ (cg : List (JStr × Option Rat))
      (acc : List (JStr × TokenPriceInfo) × List JStr),
      (∀ kv ∈ cg, P kv.1) → (∀ x ∈ dkeys acc.1, P x) →
      ∀ x ∈ dkeys (cg.foldl (fun acc av =>
        match av.2 with
        | some price =>
          (dset acc.1 av.1 (coingeckoPriceInfo price nowIso), av.1 :: acc.2)
        | none => acc) acc).1, P x := by
  intro cg
  induction cg with
  | nil =>
    intro acc _ hp
    exact hp
  | cons kv rest ih =>
    intro acc hcg hp
    rw [List.foldl_cons]
    apply ih _ (fun q hq => hcg q (List.mem_cons_of_mem _ hq))
    rcases hv : kv.2 with _ | price
    · exact hp
    · dsimp only
      exact dkeys_dset_prop P acc.1 kv.1 _ hp
        (hcg kv (List.mem_cons_self _ _))

theorem processDexPair_keys (nowIso : JStr) (P : JStr → Prop)
    (hP : ∀ s, P (jsToLower s)) :
    ∀ (ps : List DexPair) (m : List (JStr × TokenPriceInfo)),
      (∀ x ∈ dkeys m, P x) →
      ∀ x ∈ dkeys (ps.foldl (processDexPair nowIso) m), P x := by
  intro ps
  induction ps with
  | nil =>
    intro m hp
    exact hp
  | cons pair rest ih =>
    intro m hp
    rw [List.foldl_cons]
    apply ih
    unfold processDexPair
    rcases hb : pair.baseTokenAddress with _ | b
    · exact hp
    · dsimp only
      by_cases hbe : b = []
      · rw [if_pos hbe]
        exact hp
      · rw [if_neg hbe]
        exact dkeys_dset_prop P m (jsToLower b) _ hp (hP b)

theorem fetchPricesModel_keys_lowered (cg : List (JStr × Option Rat))
    (ds : Nat → Except JStr (List DexPair)) (addrs : List JStr)
    (nowIso : JStr) (hcg : ∀ kv ∈ cg, jsToLower kv.1 = kv.1) :
    ∀ x ∈ dkeys (fetchPricesModel cg ds addrs nowIso), jsToLower x = x := by
  unfold fetchPricesModel
  have hpass : ∀ x ∈ dkeys (coingeckoPass cg nowIso).1, jsToLower x = x :=
    coingeckoPass_keys nowIso _ cg ([], []) hcg
      (by intro x hx; simp [dkeys] at hx)
  have hfold : ∀ (l : List (Nat × List JStr))
      (m : List (JStr × TokenPriceInfo)),
      (∀ x ∈ dkeys m, jsToLower x = x) →
      ∀ x ∈ dkeys (l.foldl (fun m ic =>
        match ds ic.1 with
        | .ok pairs => pairs.foldl (processDexPair nowIso) m
        | .error _ => m) m), jsToLower x = x := by
    intro l
    induction l with
    | nil =>
      intro m hp
      exact hp
    | cons ic rest ih =>
      intro m hp
      rw [List.foldl_cons]
      apply ih
      rcases hds : ds ic.1 with e | pairs
      · exact hp
      · exact processDexPair_keys nowIso _ (fun s => jsToLower_idem s)
          pairs m hp
  exact hfold _ _ hpass

/-- The composed price fetcher as the routing layer sees it: the CoinGecko
result map produced by `fetchCoinGeckoPrices` fed into `fetchPrices`. -/
def fetchPricesPipeline (env : CGEnv) (cache0 : PriceCache)
    (ds : Nat → Except JStr (List DexPair)) (addrs : List JStr)
    (nowIso : JStr) : List (JStr × TokenPriceInfo) :=
  fetchPricesModel (fetchCoinGeckoPrices env cache0 addrs).prices ds addrs
    nowIso

theorem fetchPricesPipeline_keys_lowered (env : CGEnv)
    (cache0 : PriceCache) (ds : Nat → Except JStr (List DexPair))
    (addrs : List JStr) (nowIso : JStr) :
    ∀ x ∈ dkeys (fetchPricesPipeline env cache0 ds addrs nowIso),
      jsToLower x = x := by
  apply fetchPricesModel_keys_lowered
  intro kv hkv
  exact fetchCoinGeckoPrices_keys_lowered env cache0 addrs kv.1
    (List.mem_map_of_mem _ hkv)

theorem buildGrouped_keys_normalized (events : List SwapEvent) :
    ∀ x ∈ dkeys (buildGrouped events), jsNormalize x = x := by
  unfold buildGrouped
  have hfold : ∀ (evs : List SwapEvent) (m : List (JStr × SwapCounts)),
      (∀ x ∈ dkeys m, jsNormalize x = x) →
      ∀ x ∈ dkeys (evs.foldl groupStep m), jsNormalize x = x := by
    intro evs
    induction evs with
    | nil =>
      intro m hp
      exact hp
    | cons e rest ih =>
      intro m hp
      rw [List.foldl_cons]
      apply ih
      unfold groupStep
      by_cases hskip : e.token_sold_address = [] ∨
          e.token_bought_address = [] ∨ e.block_time = []
      · rw [if_pos hskip]
        exact hp
      · rw [if_neg hskip]
        exact dkeys_dset_prop _ _ _ _
          (dkeys_dset_prop _ m _ _ hp (jsNormalize_idem _))
          (jsNormalize_idem _)
  exact hfold events [] (by intro x hx; simp [dkeys] at hx)

/-- C10 (amended): every key of the mapping returned by the price fetcher
is a lowercased address, and every key of the swap-aggregate map is a
lowercased *and trimmed* address; hence aggregation lookups by the
normalised metadata address never miss a swap-aggregate entry whose key
normalises alike, and never miss a price entry whose key carries no
surrounding whitespace. (Price-map keys are only lowercased, not trimmed,
so a lookup can still miss a price entry over surrounding whitespace —
see the counterexample.) -/
theorem fetchPrices_grouped_key_normalization (env : CGEnv)
    (cache0 : PriceCache) (ds : Nat → Except JStr (List DexPair))
    (addrs : List JStr) (nowIso : JStr) (events : List SwapEvent) :
    (∀ k ∈ dkeys (fetchPricesPipeline env cache0 ds addrs nowIso),
      jsToLower k = k) ∧
    (∀ k ∈ dkeys (buildGrouped events), jsNormalize k = k) ∧
    (∀ addr k, k ∈ dkeys (buildGrouped events) →
      jsNormalize k = jsNormalize addr →
      (dget (buildGrouped events) (jsNormalize addr)).isSome = true) ∧
    (∀ addr k, k ∈ dkeys (fetchPricesPipeline env cache0 ds addrs nowIso) →
      jsTrim k = k → jsNormalize k = jsNormalize addr →
      (dget (fetchPricesPipeline env cache0 ds addrs nowIso)
        (jsNormalize addr)).isSome = true) := by
  refine ⟨fetchPricesPipeline_keys_lowered env cache0 ds addrs nowIso,
    buildGrouped_keys_normalized events, ?_, ?_⟩
  · intro addr k hk hn
    have hkk := buildGrouped_keys_normalized events k hk
    rw [hkk] at hn
    rw [← hn]
    exact dget_isSome_of_mem_dkeys _ _ hk
  · intro addr k hk htrim hn
    have hlow := fetchPricesPipeline_keys_lowered env cache0 ds addrs
      nowIso k hk
    have hkk : jsNormalize k = k := by
      unfold jsNormalize
      rw [hlow, htrim]
    rw [hkk] at hn
    rw [← hn]
    exact dget_isSome_of_mem_dkeys _ _ hk

/-- C10 counterexample: the metadata address " a" (space, 97) is served a
CoinGecko price keyed under its *lowercased but untrimmed* form, and the
aggregation step's lookup by the lowercased-and-trimmed form misses it —
the entry differs from the lookup key only by surrounding whitespace, yet
the built record carries no price. -/
theorem fetchPrices_whitespace_key_missed_counterexample :
    dget (fetchPricesPipeline ⟨fun _ => .ok [], [], 0⟩
        [([32, 97], ⟨some 1, 0⟩)] (fun _ => .error []) [[32, 97]] [])
      [32, 97] = some (coingeckoPriceInfo 1 []) ∧
    jsNormalize [32, 97] = jsNormalize [97] ∧
    (buildTokenRecord []
        (fetchPricesPipeline ⟨fun _ => .ok [], [], 0⟩
          [([32, 97], ⟨some 1, 0⟩)] (fun _ => .error []) [[32, 97]] [])
        [] [] [32, 97]).currentPrice = none := by
  refine ⟨by decide, by decide, by decide⟩

/-- Witness for the amended C10: the swap aggregate built from one event
selling token "A" is found by looking up the normalisation of " A". -/
theorem fetchPrices_grouped_key_normalization_witness :
    ([97] : JStr) ∈ dkeys (buildGrouped [⟨[65], [66], [67], none, none⟩]) ∧
    (dget (buildGrouped [⟨[65], [66], [67], none, none⟩])
      (jsNormalize [32, 65])).isSome = true :=
  ⟨by decide,
   (fetchPrices_grouped_key_normalization ⟨fun _ => .ok [], [], 0⟩ []
      (fun _ => .error []) [] [] [⟨[65], [66], [67], none, none⟩]).2.2.1
     [32, 65] [97] (by decide) (by decide)⟩
